import Mathlib

/-!
# CPotree elevation-profile extractor: embedding of `src/main.cpp`

The C++ program selects the points of a Potree octree that fall inside oriented
boxes built along a polyline and writes them as a POTREE or LAS byte stream.

Conventions of the embedding

* `double` is an abstract type `D`; the arithmetic the program performs on it
  (GLM, `<cmath>`, `std::to_string`) is collected in the record `Runtime`.
* `int`, `unsigned int`, `unsigned short` and `char` values are integers reduced
  explicitly modulo the width of the type.
* The classes declared in headers that are not part of `src/` (`OBB`,
  `PRNode`, `PotreeReader`, `Point`, `PointAttribute`, `Arguments`) are
  represented by the members that `main.cpp` uses.
* An output stream is the list of bytes written to it, each byte a number
  below 256.
-/

/-! ## Vectors, points and boxes -/

/-- GLM `dvec3`. -/
structure dvec3 (D : Type) where
  x : D
  y : D
  z : D
deriving DecidableEq, Repr

/-- GLM `dvec4`. -/
structure dvec4 (D : Type) where
  x : D
  y : D
  z : D
  w : D
deriving DecidableEq, Repr

/-- GLM `dmat4`, stored by columns. -/
structure dmat4 (D : Type) where
  c0 : dvec4 D
  c1 : dvec4 D
  c2 : dvec4 D
  c3 : dvec4 D
deriving DecidableEq, Repr

/-- The members of `Point` (`Point.h`) read by `main.cpp`: `position`, the three
channels of `color`, `intensity` and `classification`. -/
structure Point (D : Type) where
  position : dvec3 D
  r : Nat
  g : Nat
  b : Nat
  intensity : Nat
  classification : Nat
deriving DecidableEq, Repr

/-- Axis-aligned bounding box with the members `min` and `max`. -/
structure AABB (D : Type) where
  min : dvec3 D
  max : dvec3 D
deriving DecidableEq, Repr

/-- The members of the class `OBB` (`pmath.h`) that `main.cpp` calls on an
object built from a box matrix. -/
structure OBB (D : Type) where
  intersects : AABB D → Bool
  inside : dvec3 D → Bool
  axes : Fin 3 → dvec3 D

/-! ## Octree nodes -/

/-- A node of the reader's octree (`PRNode`): its level, bounding box, child
slots (`none` is a null pointer) and its stored points. -/
inductive PRNode (D : Type) where
  | mk (level : Int) (boundingBox : AABB D) (children : List (Option (PRNode D)))
      (points : List (Point D)) : PRNode D

namespace PRNode

variable {D : Type}

def level : PRNode D → Int
  | mk l _ _ _ => l

def boundingBox : PRNode D → AABB D
  | mk _ b _ _ => b

def children : PRNode D → List (Option (PRNode D))
  | mk _ _ c _ => c

def points : PRNode D → List (Point D)
  | mk _ _ _ p => p

mutual
/-- Number of nodes of the subtree rooted at a node. -/
def size : PRNode D → Nat
  | mk _ _ cs _ => 1 + sizeSlots cs
/-- Number of nodes below a list of child slots. -/
def sizeSlots : List (Option (PRNode D)) → Nat
  | [] => 0
  | none :: cs => sizeSlots cs
  | some c :: cs => size c + sizeSlots cs
end

end PRNode

/-! ## Point attributes and the reader -/

/-- Modelled from the spec: the class `PointAttribute` is declared in a header
that is not among the sources. The spec gives a closed set of attribute tags
and lets every other attribute carry its own name and declared byte size. -/
inductive PointAttribute where
  | POSITION_CARTESIAN
  | POSITION_PROJECTED_PROFILE
  | COLOR_PACKED
  | RGB
  | INTENSITY
  | CLASSIFICATION
  | other (name : String) (byteSize : Nat)
deriving DecidableEq, Repr

namespace PointAttribute

/-- Modelled from the spec: the member `name`, the attribute's tag. -/
def name : PointAttribute → String
  | POSITION_CARTESIAN => "POSITION_CARTESIAN"
  | POSITION_PROJECTED_PROFILE => "POSITION_PROJECTED_PROFILE"
  | COLOR_PACKED => "COLOR_PACKED"
  | RGB => "RGB"
  | INTENSITY => "INTENSITY"
  | CLASSIFICATION => "CLASSIFICATION"
  | other n _ => n

/-- Modelled from the spec: the member `byteSize`, following the table of
record layouts (12, 8, 4, 3, 2, 1 bytes, and the declared size otherwise). -/
def byteSize : PointAttribute → Nat
  | POSITION_CARTESIAN => 12
  | POSITION_PROJECTED_PROFILE => 8
  | COLOR_PACKED => 4
  | RGB => 3
  | INTENSITY => 2
  | CLASSIFICATION => 1
  | other _ n => n

end PointAttribute

/-- Modelled from the spec: the class `PointAttributes` built from a vector of
attributes; its member `byteSize` is the sum of the attributes' byte sizes. -/
structure PointAttributes where
  attributes : List PointAttribute
deriving DecidableEq, Repr

def PointAttributes.byteSize (pa : PointAttributes) : Nat :=
  (pa.attributes.map PointAttribute.byteSize).sum

/-- The members of `reader->metadata` read by `main.cpp`. -/
structure Metadata (D : Type) where
  boundingBox : AABB D
  scale : dvec3 D
  pointAttributes : PointAttributes

/-- The members of `PotreeReader` read by `main.cpp`. -/
structure PotreeReader (D : Type) where
  root : PRNode D
  metadata : Metadata D

/-- What the program takes from GLM, the C++ library and the platform for the
type `double`, with the memory that follows the static variable `filler`. -/
structure Runtime (D : Type) where
  /-- `a + b`. -/
  add : D → D → D
  /-- `a - b`. -/
  sub : D → D → D
  /-- `a / b`. -/
  div : D → D → D
  /-- `-a`. -/
  neg : D → D
  /-- `std::min`. -/
  min : D → D → D
  /-- `std::max`. -/
  max : D → D → D
  /-- The constant `infinity`. -/
  infinity : D
  /-- The literal `m · 10^(-e)`, as in `0.001 = lit 1 3`. -/
  lit : Int → Nat → D
  /-- `glm::dot`. -/
  dot : dvec3 D → dvec3 D → D
  /-- `glm::length`. -/
  length : dvec3 D → D
  /-- Product of a `dmat4` with a `dvec4`. -/
  transform : dmat4 D → dvec4 D → dvec4 D
  /-- Integer obtained when a `double` is converted to an integral type. -/
  toInt : D → Int
  /-- `std::to_string(double)`. -/
  to_string : D → String
  /-- The 64-bit pattern of a `double` in memory. -/
  bits : D → Nat
  /-- Byte found `i` bytes after the start of the 8-byte variable `filler`,
  for `i ≥ 8`. -/
  adjacent : Nat → Nat

/-- Total number of nodes held by the subtrees on a work stack. -/
def stackSize {D : Type} : List (PRNode D) → Nat
  | [] => 0
  | n :: ns => n.size + stackSize ns

/-! ## Machine integers -/

/-- Value of a C++ `int` (32 bit, two's complement) holding the integer `x`. -/
def wrapInt32 (x : Int) : Int := (x + 2147483648) % 4294967296 - 2147483648

/-- Little-endian bytes of the low `n` bytes of the two's-complement
representation of `x`: what `out->write(reinterpret_cast<const char*>(&x), n)`
emits. -/
def leBytes : Nat → Int → List Nat
  | 0, _ => []
  | n + 1, x => (x % 256).toNat :: leBytes n (x / 256)

/-- Unsigned value of a little-endian byte sequence. -/
def leDecode : List Nat → Nat
  | [] => 0
  | b :: bs => b + 256 * leDecode bs

/-- Signed 32-bit value of four little-endian bytes. -/
def leDecodeI32 (bs : List Nat) : Int := wrapInt32 (leDecode bs)

/-! ## Spatial filter -/

/-- `struct FilterResult`. -/
structure FilterResult (D : Type) where
  box : dmat4 D
  points : List (Point D) := []
  pointsProcessed : Int := 0
  nodesProcessed : Int := 0
  durationMS : Int := 0

section Filter

variable {D : Type}

/-- The `for(auto child : node->children())` loop of `getPointsInBox`: every
present child whose box intersects the OBB and whose level is at most
`maxLevel` is pushed on the work stack (head of the list is the top). -/
def pushChildren (obb : OBB D) (maxLevel : Int) :
    List (Option (PRNode D)) → List (PRNode D) → List (PRNode D)
  | [], workload => workload
  | none :: cs, workload => pushChildren obb maxLevel cs workload
  | some child :: cs, workload =>
      if obb.intersects child.boundingBox && decide (child.level ≤ maxLevel) then
        pushChildren obb maxLevel cs (child :: workload)
      else
        pushChildren obb maxLevel cs workload

/-- The `while(!workload.empty())` loop of `getPointsInBox`: pop the top node,
append it to `intersectingNodes`, push its eligible children. -/
def selectNodes (obb : OBB D) (maxLevel : Int) :
    List (PRNode D) → List (PRNode D) → List (PRNode D)
  | [], intersectingNodes => intersectingNodes
  | node :: workload, intersectingNodes =>
      selectNodes obb maxLevel (pushChildren obb maxLevel node.children workload)
        (intersectingNodes ++ [node])
termination_by workload => stackSize workload
decreasing_by
  have key : ∀ (cs : List (Option (PRNode D))) (w : List (PRNode D)),
      stackSize (pushChildren obb maxLevel cs w) ≤ PRNode.sizeSlots cs + stackSize w := by
    intro cs
    induction cs with
    | nil => intro w; simp [pushChildren, PRNode.sizeSlots]
    | cons c cs ih =>
      intro w
      cases c with
      | none => simpa [pushChildren, PRNode.sizeSlots] using ih w
      | some child =>
        simp only [pushChildren, PRNode.sizeSlots]
        split
        · have := ih (child :: w)
          simp only [stackSize] at this
          omega
        · have := ih w
          omega
  have h := key node.children workload
  cases node with
  | mk l b cs ps =>
    simp only [PRNode.children] at h ⊢
    simp only [stackSize, PRNode.size]
    omega

/-- The inner `for(auto &point : node->points())` loop: the state is the vector
`accepted` and the counter `pointsProcessed`. -/
def filterPoints (obb : OBB D) :
    List (Point D) → List (Point D) × Int → List (Point D) × Int
  | [], st => st
  | point :: ps, (accepted, pointsProcessed) =>
      if obb.inside point.position then
        filterPoints obb ps (accepted ++ [point], wrapInt32 (pointsProcessed + 1))
      else
        filterPoints obb ps (accepted, wrapInt32 (pointsProcessed + 1))

/-- The outer `for(auto node : intersectingNodes)` loop, which skips the nodes
below `minLevel`. -/
def filterNodes (obb : OBB D) (minLevel : Int) :
    List (PRNode D) → List (Point D) × Int → List (Point D) × Int
  | [], st => st
  | node :: ns, st =>
      if node.level < minLevel then
        filterNodes obb minLevel ns st
      else
        filterNodes obb minLevel ns (filterPoints obb node.points st)

/-- `getPointsInBox`. `mkOBB` is the constructor `OBB(box)`. -/
def getPointsInBox (mkOBB : dmat4 D → OBB D) (reader : PotreeReader D) (box : dmat4 D)
    (minLevel maxLevel : Int) : FilterResult D :=
  let obb := mkOBB box
  let intersectingNodes := selectNodes obb maxLevel [reader.root] []
  let st := filterNodes obb minLevel intersectingNodes ([], 0)
  { box := box
    points := st.1
    pointsProcessed := st.2
    nodesProcessed := wrapInt32 intersectingNodes.length }

/-! ### Reference description of the traversal -/

/-- A child is eligible when the loop of `getPointsInBox` pushes it. -/
def eligible (obb : OBB D) (maxLevel : Int) (child : PRNode D) : Bool :=
  obb.intersects child.boundingBox && decide (child.level ≤ maxLevel)

mutual
/-- Order in which the work stack pops the nodes of a subtree: the node
itself, then the subtrees of its eligible children, last pushed first. -/
def dfs (obb : OBB D) (maxLevel : Int) : PRNode D → List (PRNode D)
  | .mk l b cs ps => .mk l b cs ps :: dfsSlots obb maxLevel cs
/-- Order in which the nodes below a list of child slots are popped. -/
def dfsSlots (obb : OBB D) (maxLevel : Int) : List (Option (PRNode D)) → List (PRNode D)
  | [] => []
  | none :: cs => dfsSlots obb maxLevel cs
  | some c :: cs =>
      if eligible obb maxLevel c then dfsSlots obb maxLevel cs ++ dfs obb maxLevel c
      else dfsSlots obb maxLevel cs
end

/-- The nodes the traversal visits: the root, and every present child of a
visited node whose box intersects the OBB and whose level is at most
`maxLevel`. -/
inductive Visited (obb : OBB D) (maxLevel : Int) (root : PRNode D) : PRNode D → Prop
  | root : Visited obb maxLevel root root
  | child (n c : PRNode D) : Visited obb maxLevel root n → some c ∈ n.children →
      obb.intersects c.boundingBox = true → c.level ≤ maxLevel → Visited obb maxLevel root c

/-- The nodes of the tree below `root`: the root and every present child of a
node of the tree. -/
inductive InTree (root : PRNode D) : PRNode D → Prop
  | root : InTree root root
  | child (n c : PRNode D) : InTree root n → some c ∈ n.children → InTree root c

/-- Points a visited node contributes to the result. -/
def emitted (obb : OBB D) (minLevel : Int) (node : PRNode D) : List (Point D) :=
  if node.level < minLevel then [] else node.points.filter (fun p => obb.inside p.position)

end Filter

/-! ## Byte streams -/

/-- Bytes of a `std::string`, one per character. -/
def bytesOfString (s : String) : List Nat := s.toList.map (fun c => c.toNat % 256)

/-- The vector `zeroes` of `saveLAS` and the bytes a `write` of `n ≤ 8` bytes
takes from it. -/
def zeroes (n : Nat) : List Nat := (List.replicate 8 0).take n

/-- The 8 bytes of a `double` in memory. -/
def rawDouble {D : Type} (R : Runtime D) (d : D) : List Nat := leBytes 8 (R.bits d)

/-- The 24 bytes of a `dvec3` in memory. -/
def rawVec3 {D : Type} (R : Runtime D) (v : dvec3 D) : List Nat :=
  rawDouble R v.x ++ rawDouble R v.y ++ rawDouble R v.z

/-- Store `bytes` into `buffer` from offset `off` on; stores past the end of
the buffer are dropped. -/
def poke : List Nat → Nat → List Nat → List Nat
  | [], _, _ => []
  | b :: buffer, 0, [] => b :: buffer
  | _ :: buffer, 0, v :: vs => v :: poke buffer 0 vs
  | b :: buffer, off + 1, vs => b :: poke buffer off vs

/-! ## POTREE encoder -/

section Potree

variable {D : Type}

/-- The accumulators of the first loop of `savePotree`. -/
structure Totals (D : Type) where
  min : dvec3 D
  max : dvec3 D
  pointsAccepted : Int
  pointsProcessed : Int
  nodesProcessed : Int
  durationMS : Int

/-- The loop `for(auto &p : result.points)` that widens `min` and `max`. -/
def accumulateBounds (R : Runtime D) : List (Point D) → dvec3 D × dvec3 D → dvec3 D × dvec3 D
  | [], st => st
  | p :: ps, (min, max) =>
      accumulateBounds R ps
        (⟨R.min min.x p.position.x, R.min min.y p.position.y, R.min min.z p.position.z⟩,
         ⟨R.max max.x p.position.x, R.max max.y p.position.y, R.max max.z p.position.z⟩)

/-- The first loop `for(auto &result : results)` of `savePotree`. -/
def accumulate (R : Runtime D) : List (FilterResult D) → Totals D → Totals D
  | [], t => t
  | result :: rest, t =>
      let bounds := accumulateBounds R result.points (t.min, t.max)
      accumulate R rest
        { min := bounds.1
          max := bounds.2
          pointsAccepted := wrapInt32 (t.pointsAccepted + result.points.length)
          pointsProcessed := wrapInt32 (t.pointsProcessed + result.pointsProcessed)
          nodesProcessed := wrapInt32 (t.nodesProcessed + result.nodesProcessed)
          durationMS := wrapInt32 (t.durationMS + result.durationMS) }

/-- The loop over `pointAttributes.attributes` in the header block: one quoted
name per line, followed by a comma except after the last one. -/
def attributeLines : List PointAttribute → String
  | [] => ""
  | [att] => "\t\t\"" ++ att.name ++ "\"" ++ "\n"
  | att :: rest => "\t\t\"" ++ att.name ++ "\"" ++ ",\n" ++ attributeLines rest

/-- The string `header` built in the block `HEADER` of `savePotree`. -/
def potreeHeader (R : Runtime D) (t : Totals D) (pointAttributes : PointAttributes)
    (scale : D) : String :=
  "\x7b\n"
    ++ ("\t\"points\": " ++ toString t.pointsAccepted ++ ",\n")
    ++ ("\t\"pointsProcessed\": " ++ toString t.pointsProcessed ++ ",\n")
    ++ ("\t\"nodesProcessed\": " ++ toString t.nodesProcessed ++ ",\n")
    ++ ("\t\"durationMS\": " ++ toString t.durationMS ++ ",\n")
    ++ "\t\"boundingBox\": \x7b\n"
    ++ ("\t\t\"lx\": " ++ R.to_string t.min.x ++ ",\n")
    ++ ("\t\t\"ly\": " ++ R.to_string t.min.y ++ ",\n")
    ++ ("\t\t\"lz\": " ++ R.to_string t.min.z ++ ",\n")
    ++ ("\t\t\"ux\": " ++ R.to_string t.max.x ++ ",\n")
    ++ ("\t\t\"uy\": " ++ R.to_string t.max.y ++ ",\n")
    ++ ("\t\t\"uz\": " ++ R.to_string t.max.z ++ "\n")
    ++ "\t\x7d,\n"
    ++ "\t\"pointAttributes\": [\n"
    ++ attributeLines pointAttributes.attributes
    ++ "\t],\n"
    ++ ("\t\"bytesPerPoint\": " ++ toString pointAttributes.byteSize ++ ",\n")
    ++ ("\t\"scale\": " ++ R.to_string scale ++ "\n")
    ++ "\x7d\n"

/-- `dvec3(box * dvec4(x, y, z, w))`. -/
def transformPoint (R : Runtime D) (box : dmat4 D) (v : dvec4 D) : dvec3 D :=
  let r := R.transform box v
  ⟨r.x, r.y, r.z⟩

/-- Difference of two `dvec3`. -/
def subVec3 (R : Runtime D) (a b : dvec3 D) : dvec3 D :=
  ⟨R.sub a.x b.x, R.sub a.y b.y, R.sub a.z b.z⟩

/-- `localMin` of a box: the image of the corner `(-0.5, -0.5, -0.5)`. -/
def localMinOf (R : Runtime D) (box : dmat4 D) : dvec3 D :=
  transformPoint R box ⟨R.lit (-5) 1, R.lit (-5) 1, R.lit (-5) 1, R.lit 1 0⟩

/-- `lvx` of a box: the image of the corner `(+0.5, -0.5, -0.5)` minus
`localMin`. -/
def lvxOf (R : Runtime D) (box : dmat4 D) : dvec3 D :=
  subVec3 R (transformPoint R box ⟨R.lit 5 1, R.lit (-5) 1, R.lit (-5) 1, R.lit 1 0⟩)
    (localMinOf R box)

/-- The bytes written for one attribute of one point: the `if` chain in the
innermost loop of `savePotree`. -/
def encodeAttribute (R : Runtime D) (obb : OBB D) (min localMin : dvec3 D)
    (mileage scale : D) (p : Point D) : PointAttribute → List Nat
  | .POSITION_CARTESIAN =>
      let ux := R.toInt (R.div (R.sub p.position.x min.x) scale)
      let uy := R.toInt (R.div (R.sub p.position.y min.y) scale)
      let uz := R.toInt (R.div (R.sub p.position.z min.z) scale)
      leBytes 4 ux ++ leBytes 4 uy ++ leBytes 4 uz
  | .POSITION_PROJECTED_PROFILE =>
      let lp := subVec3 R p.position localMin
      let dx := R.add (R.dot lp (obb.axes 0)) mileage
      let dz := R.dot lp (obb.axes 2)
      let ux := R.toInt (R.div dx scale)
      let uz := R.toInt (R.div dz scale)
      leBytes 4 ux ++ leBytes 4 uz
  | .COLOR_PACKED => [p.r % 256, p.g % 256, p.b % 256] ++ [0]
  | .RGB => [p.r % 256, p.g % 256, p.b % 256]
  | .INTENSITY => leBytes 2 p.intensity
  | .CLASSIFICATION => leBytes 1 p.classification
  | .other _ byteSize =>
      (List.range byteSize).map (fun i => if i < 8 then 0 else R.adjacent i % 256)

/-- The bytes written for one point: the loop over the attributes. -/
def encodePoint (R : Runtime D) (obb : OBB D) (min localMin : dvec3 D)
    (mileage scale : D) (pointAttributes : PointAttributes) (p : Point D) : List Nat :=
  pointAttributes.attributes.flatMap (encodeAttribute R obb min localMin mileage scale p)

/-- The second loop `for(auto &result : results)` of `savePotree`, which carries
`mileage` from one result to the next. -/
def encodeResults (R : Runtime D) (mkOBB : dmat4 D → OBB D) (min : dvec3 D) (scale : D)
    (pointAttributes : PointAttributes) : List (FilterResult D) → D → List Nat
  | [], _ => []
  | result :: rest, mileage =>
      let box := result.box
      let obb := mkOBB box
      let localMin := localMinOf R box
      let lvx := lvxOf R box
      result.points.flatMap (encodePoint R obb min localMin mileage scale pointAttributes)
        ++ encodeResults R mkOBB min scale pointAttributes rest (R.add mileage (R.length lvx))

/-- The initial values of `min`, `max` and the four counters. -/
def initialTotals (R : Runtime D) : Totals D :=
  { min := ⟨R.infinity, R.infinity, R.infinity⟩
    max := ⟨R.neg R.infinity, R.neg R.infinity, R.neg R.infinity⟩
    pointsAccepted := 0
    pointsProcessed := 0
    nodesProcessed := 0
    durationMS := 0 }

/-- The totals `savePotree` computes before it writes the header. -/
def potreeTotals (R : Runtime D) (results : List (FilterResult D)) : Totals D :=
  accumulate R results (initialTotals R)

/-- `savePotree`: the bytes written to `out`. The parameter `reader` of the
source is not used by the function. -/
def savePotree (R : Runtime D) (mkOBB : dmat4 D → OBB D) (results : List (FilterResult D))
    (pointAttributes : PointAttributes) : List Nat :=
  let scale := R.lit 1 3
  let t := potreeTotals R results
  let header := potreeHeader R t pointAttributes scale
  let headerSize := wrapInt32 header.length
  leBytes 4 headerSize ++ bytesOfString header
    ++ encodeResults R mkOBB t.min scale pointAttributes results (R.lit 0 0)

end Potree

/-! ## LAS encoder -/

section Las

variable {D : Type}

/-- The values stored in `ixyz[0..2]` for a point: the quotients converted to
`int`. -/
def lasQuantize (R : Runtime D) (bb : AABB D) (scale : dvec3 D) (p : Point D) :
    Int × Int × Int :=
  (wrapInt32 (R.toInt (R.div (R.sub p.position.x bb.min.x) scale.x)),
   wrapInt32 (R.toInt (R.div (R.sub p.position.y bb.min.y) scale.y)),
   wrapInt32 (R.toInt (R.div (R.sub p.position.z bb.min.z) scale.z)))

/-- The public header written by `saveLAS`, field by field. -/
def lasHeader (R : Runtime D) (reader : PotreeReader D) (numPoints : Nat) : List Nat :=
  let scale := reader.metadata.scale
  let offsets := reader.metadata.boundingBox.min
  let bb := reader.metadata.boundingBox
  bytesOfString "LASF"
    ++ zeroes 2 ++ zeroes 2 ++ zeroes 4 ++ zeroes 2 ++ zeroes 2 ++ zeroes 8
    ++ leBytes 1 1
    ++ leBytes 1 2
    ++ bytesOfString "PotreeElevationProfile          "
    ++ bytesOfString "PotreeElevationProfile          "
    ++ leBytes 2 0
    ++ leBytes 2 0
    ++ leBytes 2 227
    ++ leBytes 4 227
    ++ zeroes 4
    ++ leBytes 1 2
    ++ leBytes 2 26
    ++ leBytes 4 numPoints
    ++ leBytes 4 numPoints
    ++ zeroes 4 ++ zeroes 4 ++ zeroes 4 ++ zeroes 4
    ++ rawVec3 R scale
    ++ rawVec3 R offsets
    ++ rawDouble R bb.max.x ++ rawDouble R bb.min.x
    ++ rawDouble R bb.max.y ++ rawDouble R bb.min.y
    ++ rawDouble R bb.max.z ++ rawDouble R bb.min.z

/-- The stores into `buffer` made for one point; the result is the buffer that
is then written out. -/
def lasFillBuffer (R : Runtime D) (bb : AABB D) (scale : dvec3 D) (buffer : List Nat)
    (p : Point D) : List Nat :=
  let ixyz := lasQuantize R bb scale p
  let buffer := poke buffer 0 (leBytes 4 ixyz.1)
  let buffer := poke buffer 4 (leBytes 4 ixyz.2.1)
  let buffer := poke buffer 8 (leBytes 4 ixyz.2.2)
  let buffer := poke buffer 12 (leBytes 2 (p.intensity % 65536))
  let buffer := poke buffer 20 (leBytes 2 (p.r % 256))
  let buffer := poke buffer 22 (leBytes 2 (p.g % 256))
  let buffer := poke buffer 24 (leBytes 2 (p.b % 256))
  buffer

/-- The loop `for(Point &p : result.points)` of `saveLAS`: returns the bytes
written and the buffer left behind. -/
def lasWritePoints (R : Runtime D) (bb : AABB D) (scale : dvec3 D) :
    List (Point D) → List Nat → List Nat × List Nat
  | [], buffer => ([], buffer)
  | p :: ps, buffer =>
      let buffer := lasFillBuffer R bb scale buffer p
      let rest := lasWritePoints R bb scale ps buffer
      (buffer.take 26 ++ rest.1, rest.2)

/-- The loop `for(auto &result : results)` of `saveLAS`. The values `obb`,
`localMin` and `lvx` it computes are not used. -/
def lasWriteResults (R : Runtime D) (bb : AABB D) (scale : dvec3 D) :
    List (FilterResult D) → List Nat → List Nat × List Nat
  | [], buffer => ([], buffer)
  | result :: rest, buffer =>
      let here := lasWritePoints R bb scale result.points buffer
      let after := lasWriteResults R bb scale rest here.2
      (here.1 ++ after.1, after.2)

/-- The counting loop of `saveLAS` on an `unsigned int`. -/
def lasNumPoints : List (FilterResult D) → Nat → Nat
  | [], numPoints => numPoints
  | result :: rest, numPoints =>
      lasNumPoints rest ((numPoints + result.points.length) % 4294967296)

/-- `saveLAS`: the bytes written to `out`. The parameter `attributes` of the
source is not used by the function. -/
def saveLAS (R : Runtime D) (reader : PotreeReader D) (results : List (FilterResult D)) :
    List Nat :=
  let numPoints := lasNumPoints results 0
  let bb := reader.metadata.boundingBox
  let scale := reader.metadata.scale
  let buffer := List.replicate 26 0
  lasHeader R reader numPoints ++ (lasWriteResults R bb scale results buffer).1

end Las

/-! ## Output dispatcher -/

/-- The members of the class `Arguments` (`stuff.h`) called by `save`. -/
structure Arguments where
  /-- `args.hasKey(key)`. -/
  hasKey : String → Bool
  /-- `args.get(key)`: all values of a key. -/
  get : String → List String
  /-- `args.get(key, index)`. -/
  getAt : String → Nat → String
  /-- `args.get(key, index, default)`. -/
  getOr : String → Nat → String → String

/-- The stream `out` points to: `&cout` or a new `ofstream` on a file. -/
inductive Sink where
  | stdout
  | file (path : String)
deriving DecidableEq, Repr

/-- The encoder functions `save` can call. -/
inductive Encoder where
  | savePotree
  | saveLAS
deriving DecidableEq, Repr

/-- What a call of `save` does. -/
structure SaveRun where
  /-- Text written to `cerr`. -/
  cerr : List String
  /-- The pointer `out`; `none` is `nullptr`. -/
  out : Option Sink
  /-- The schema `pointAttributes` built from the arguments. -/
  pointAttributes : PointAttributes
  /-- The encoder that is called with `out` and `pointAttributes`, if any. -/
  encoder : Option Encoder
  /-- The bytes the called encoder writes through `out`. -/
  written : List Nat
  /-- Whether a null pointer is used: `out` is null when the encoder and
  `out->flush()` use it, or `dynamic_cast<ofstream*>(out)` is null when
  `close()` is called on it. -/
  nullUsed : Bool

/-- `save`. `fromString` is `PointAttribute::fromString`. -/
def save {D : Type} (R : Runtime D) (mkOBB : dmat4 D → OBB D)
    (fromString : String → PointAttribute) (reader : PotreeReader D)
    (results : List (FilterResult D)) (args : Arguments) : SaveRun :=
  let sink : Option Sink × List String :=
    if args.hasKey "stdout" then (some Sink.stdout, [])
    else if args.hasKey "o" then (some (Sink.file (args.getAt "o" 0)), [])
    else (none,
      ["ERROR: No output specified. Either -o <file> or --stdout have to be specified"])
  let attributes : List PointAttribute :=
    if args.hasKey "output-attributes" then
      (args.get "output-attributes").map fromString
    else
      reader.metadata.pointAttributes.attributes ++ [PointAttribute.POSITION_PROJECTED_PROFILE]
  let pointAttributes : PointAttributes := ⟨attributes⟩
  let outFormat := args.getOr "output-format" 0 "POTREE"
  let call : Option Encoder × List Nat :=
    if outFormat = "POTREE" then
      (some Encoder.savePotree, savePotree R mkOBB results pointAttributes)
    else if outFormat = "LAS" then
      (some Encoder.saveLAS, saveLAS R reader results)
    else (none, [])
  { cerr := sink.2
    out := sink.1
    pointAttributes := pointAttributes
    encoder := call.1
    written := call.2
    nullUsed := sink.1.isNone || (args.hasKey "stdout" && args.hasKey "o") }

/-! ## Quantities the encoder properties refer to -/

/-- Number of accepted points: the sum of `result.points.size()`. -/
def pointsAccepted {D : Type} (results : List (FilterResult D)) : Nat :=
  (results.map (fun result => result.points.length)).sum

/-- The accepted points of all results, in order. -/
def acceptedPoints {D : Type} (results : List (FilterResult D)) : List (Point D) :=
  results.flatMap (fun result => result.points)

/-- The ranges of the member types of `Point`: 8-bit colour channels and
classification, 16-bit intensity. -/
def Point.InRange {D : Type} (p : Point D) : Prop :=
  p.r < 256 ∧ p.g < 256 ∧ p.b < 256 ∧ p.intensity < 65536 ∧ p.classification < 256

/-- The 26 bytes of the LAS record of a point, field by field. -/
def lasRecord {D : Type} (R : Runtime D) (bb : AABB D) (scale : dvec3 D) (p : Point D) :
    List Nat :=
  leBytes 4 (lasQuantize R bb scale p).1 ++ leBytes 4 (lasQuantize R bb scale p).2.1
    ++ leBytes 4 (lasQuantize R bb scale p).2.2 ++ leBytes 2 (p.intensity % 65536)
    ++ [0, 0, 0, 0, 0, 0]
    ++ leBytes 2 (p.r % 256) ++ leBytes 2 (p.g % 256) ++ leBytes 2 (p.b % 256)

/-! ## A concrete geometry for evaluating the program -/

/-- Exact oriented box of a matrix that only scales and translates, over integer
coordinates: the image of the cube `[-1/2, 1/2]³` is the set of `p` with
`2·|p.k − t.k| ≤ s.k` on every axis. -/
def axisAlignedOBB (box : dmat4 Int) : OBB Int where
  intersects bb :=
    decide (2 * bb.min.x ≤ 2 * box.c3.x + box.c0.x ∧ 2 * box.c3.x - box.c0.x ≤ 2 * bb.max.x ∧
      2 * bb.min.y ≤ 2 * box.c3.y + box.c1.y ∧ 2 * box.c3.y - box.c1.y ≤ 2 * bb.max.y ∧
      2 * bb.min.z ≤ 2 * box.c3.z + box.c2.z ∧ 2 * box.c3.z - box.c2.z ≤ 2 * bb.max.z)
  inside p :=
    decide (2 * |p.x - box.c3.x| ≤ box.c0.x ∧ 2 * |p.y - box.c3.y| ≤ box.c1.y ∧
      2 * |p.z - box.c3.z| ≤ box.c2.z)
  axes i := if i = 0 then ⟨1, 0, 0⟩ else if i = 1 then ⟨0, 1, 0⟩ else ⟨0, 0, 1⟩

/-- Box matrix scaling by `(sx, sy, sz)` and translating to `(tx, ty, tz)`. -/
def scaleTranslate (sx sy sz tx ty tz : Int) : dmat4 Int :=
  ⟨⟨sx, 0, 0, 0⟩, ⟨0, sy, 0, 0⟩, ⟨0, 0, sz, 0⟩, ⟨tx, ty, tz, 1⟩⟩

/-- The cube `[lo, hi]³` as a bounding box. -/
def cubeAABB (lo hi : Int) : AABB Int := ⟨⟨lo, lo, lo⟩, ⟨hi, hi, hi⟩⟩

/-- A point at `(x, y, z)` with colour `(10, 20, 30)`, intensity 500 and class 2. -/
def samplePoint (x y z : Int) : Point Int := ⟨⟨x, y, z⟩, 10, 20, 30, 500, 2⟩

/-- The box matrix of the cube `[-1, 1]³`. -/
def unitQuery : dmat4 Int := scaleTranslate 2 2 2 0 0 0

/-- A reader over the given tree, with the dataset box `[-16, 16]³`, unit
scale and the stored schema `POSITION_CARTESIAN, RGB`. -/
def sampleReader (root : PRNode Int) : PotreeReader Int :=
  ⟨root, ⟨cubeAABB (-16) 16, ⟨1, 1, 1⟩, ⟨[.POSITION_CARTESIAN, .RGB]⟩⟩⟩

/-- A single root node at level 0 holding one point at the origin. -/
def singlePointTree : PRNode Int :=
  .mk 0 (cubeAABB (-1) 1) [] [samplePoint 0 0 0]

/-- A root with points inside and outside the query box, one child that
overlaps it and one that does not. -/
def twoLevelTree : PRNode Int :=
  .mk 0 (cubeAABB (-16) 16)
    [some (.mk 1 (cubeAABB (-16) 0) [] [samplePoint (-1) 0 0, samplePoint (-9) 0 0]),
     none,
     some (.mk 1 (cubeAABB 8 16) [] [samplePoint 9 9 9])]
    [samplePoint 0 0 0, samplePoint 5 0 0]

/-- Integer arithmetic standing in for `double`, for evaluating the encoders on
concrete inputs: literals keep their mantissa, conversions are the identity
and the memory after `filler` holds the byte 170. -/
def intRuntime : Runtime Int where
  add a b := a + b
  sub a b := a - b
  div a b := a / b
  neg a := -a
  min a b := if a ≤ b then a else b
  max a b := if a ≤ b then b else a
  infinity := 1000000
  lit m _ := m
  dot a b := a.x * b.x + a.y * b.y + a.z * b.z
  length v := |v.x| + |v.y| + |v.z|
  transform m v :=
    ⟨m.c0.x * v.x + m.c1.x * v.y + m.c2.x * v.z + m.c3.x * v.w,
     m.c0.y * v.x + m.c1.y * v.y + m.c2.y * v.z + m.c3.y * v.w,
     m.c0.z * v.x + m.c1.z * v.y + m.c2.z * v.z + m.c3.z * v.w,
     m.c0.w * v.x + m.c1.w * v.y + m.c2.w * v.z + m.c3.w * v.w⟩
  toInt a := a
  to_string a := toString a
  bits a := (a % 18446744073709551616).toNat
  adjacent _ := 170

/-- Arguments given as a list of keys with their values. -/
def argumentsOfList (kv : List (String × List String)) : Arguments where
  hasKey k := (kv.lookup k).isSome
  get k := (kv.lookup k).getD []
  getAt k i := ((kv.lookup k).getD []).getD i ""
  getOr k i d := ((kv.lookup k).getD []).getD i d

/-- A resolution of attribute names: the six tags of the closed set by name,
any other name as an attribute of size 0. -/
def sampleFromString (name : String) : PointAttribute :=
  if name = "POSITION_CARTESIAN" then .POSITION_CARTESIAN
  else if name = "POSITION_PROJECTED_PROFILE" then .POSITION_PROJECTED_PROFILE
  else if name = "COLOR_PACKED" then .COLOR_PACKED
  else if name = "RGB" then .RGB
  else if name = "INTENSITY" then .INTENSITY
  else if name = "CLASSIFICATION" then .CLASSIFICATION
  else .other name 0

/-- Two results over the unit query box, with two points and one point. -/
def sampleResults : List (FilterResult Int) :=
  [{ box := unitQuery, points := [samplePoint 0 0 0, samplePoint (-1) 0 1],
     pointsProcessed := 4, nodesProcessed := 2 },
   { box := unitQuery, points := [samplePoint 1 1 0], pointsProcessed := 1,
     nodesProcessed := 1 }]

/-! ## Profile driver -/

/-- GLM `dvec2`. -/
structure dvec2 (D : Type) where
  x : D
  y : D
deriving DecidableEq, Repr

/-- What `getPointsInProfile` takes from GLM and from the bounding-box class
besides the operations of `Runtime`. -/
structure Glm (D : Type) where
  /-- `bb.center()`. -/
  center : AABB D → dvec3 D
  /-- `bb.size()`. -/
  size : AABB D → dvec3 D
  /-- `glm::atan(y, x)`. -/
  atan : D → D → D
  /-- The matrix `dmat4()`. -/
  identity : dmat4 D
  /-- `glm::translate(m, v)`. -/
  translate : dmat4 D → dvec3 D → dmat4 D
  /-- `glm::rotate(m, angle, axis)`. -/
  rotate : dmat4 D → D → dvec3 D → dmat4 D
  /-- `glm::scale(m, v)`. -/
  scale : dmat4 D → dvec3 D → dmat4 D
  /-- Product of two `dmat4`. -/
  mul : dmat4 D → dmat4 D → dmat4 D

/-- The local `struct Segment` of `getPointsInProfile`. -/
structure Segment (D : Type) where
  start : dvec2 D
  stop : dvec2 D
  box : dmat4 D

section Profile

variable {D : Type}

/-- The body of the first loop of `getPointsInProfile`: the box matrix built
from two consecutive vertices. -/
def segmentBox (R : Runtime D) (G : Glm D) (bb : AABB D) (width : D) (a b : dvec2 D) :
    dmat4 D :=
  let start : dvec3 D := ⟨a.x, a.y, (G.center bb).z⟩
  let stop : dvec3 D := ⟨b.x, b.y, (G.center bb).z⟩
  let delta := subVec3 R stop start
  let length := R.length delta
  let angle := G.atan delta.y delta.x
  let size : dvec3 D := ⟨length, width, (G.size bb).z⟩
  G.mul
    (G.mul
      (G.mul (G.translate G.identity start)
        (G.rotate G.identity angle ⟨R.lit 0 0, R.lit 0 0, R.lit 1 0⟩))
      (G.scale G.identity size))
    (G.translate G.identity ⟨R.lit 5 1, R.lit 0 0, R.lit 0 0⟩)

/-- The value of `polyline.size() - 1`, computed on the unsigned 64-bit type
`size_t`. -/
def segmentBound (n : Nat) : Nat := (18446744073709551615 + n) % 18446744073709551616

/-- One more than the largest value of an `int`. -/
def intLimit : Nat := 2147483648

/-- The loop `for(int i = 0; i < polyline.size() - 1; i++)` of
`getPointsInProfile`, with `bound` the value of `polyline.size() - 1`. The
result is `none` when the loop leaves defined behaviour: a vertex is read past
the end of the vector, or `i++` overflows `int`. -/
def buildSegments (R : Runtime D) (G : Glm D) (bb : AABB D) (width : D)
    (polyline : List (dvec2 D)) (bound : Nat) (i : Nat) (segments : List (Segment D)) :
    Option (List (Segment D)) :=
  if i < bound then
    match polyline[i]?, polyline[i + 1]? with
    | some a, some b =>
        if i + 1 < intLimit then
          buildSegments R G bb width polyline bound (i + 1)
            (segments ++ [⟨a, b, segmentBox R G bb width a b⟩])
        else none
    | _, _ => none
  else some segments
termination_by bound - i

/-- The body of the loop `for(Segment &segment : segments)` of
`getPointsInProfile`: the `result` pushed for a segment. `getMilli k` is the
value `t.getMilli()` of the timer around the `k`-th call of `getPointsInBox`. -/
def segmentResult (mkOBB : dmat4 D → OBB D) (getMilli : Nat → Int) (reader : PotreeReader D)
    (minLevel maxLevel : Int) (segment : Segment D) (k : Nat) : FilterResult D :=
  let box := segment.box
  let pointsInBox := getPointsInBox mkOBB reader box minLevel maxLevel
  { box := pointsInBox.box
    points := [] ++ pointsInBox.points
    pointsProcessed := wrapInt32 (0 + pointsInBox.pointsProcessed)
    nodesProcessed := wrapInt32 (0 + pointsInBox.nodesProcessed)
    durationMS := wrapInt32 (getMilli k) }

/-- The loop `for(Segment &segment : segments)` of `getPointsInProfile`, which
pushes one result per segment. -/
def profileLoop (mkOBB : dmat4 D → OBB D) (getMilli : Nat → Int) (reader : PotreeReader D)
    (minLevel maxLevel : Int) :
    List (Segment D) → Nat → List (FilterResult D) → List (FilterResult D)
  | [], _, results => results
  | segment :: rest, k, results =>
      profileLoop mkOBB getMilli reader minLevel maxLevel rest (k + 1)
        (results ++ [segmentResult mkOBB getMilli reader minLevel maxLevel segment k])

/-- `getPointsInProfile`; `none` when building the segments leaves defined
behaviour. -/
def getPointsInProfile (R : Runtime D) (G : Glm D) (mkOBB : dmat4 D → OBB D)
    (getMilli : Nat → Int) (reader : PotreeReader D) (polyline : List (dvec2 D)) (width : D)
    (minLevel maxLevel : Int) : Option (List (FilterResult D)) :=
  let bb := reader.metadata.boundingBox
  match buildSegments R G bb width polyline (segmentBound polyline.length) 0 [] with
  | none => none
  | some segments => some (profileLoop mkOBB getMilli reader minLevel maxLevel segments 0 [])

/-- The segments of a polyline, one per pair of consecutive vertices. -/
def segmentsFrom (R : Runtime D) (G : Glm D) (bb : AABB D) (width : D) :
    List (dvec2 D) → List (Segment D)
  | a :: b :: rest =>
      ⟨a, b, segmentBox R G bb width a b⟩ :: segmentsFrom R G bb width (b :: rest)
  | _ => []

/-- The results of a list of segments, the first one timed by `getMilli k`. -/
def profileList (mkOBB : dmat4 D → OBB D) (getMilli : Nat → Int) (reader : PotreeReader D)
    (minLevel maxLevel : Int) : List (Segment D) → Nat → List (FilterResult D)
  | [], _ => []
  | segment :: rest, k =>
      segmentResult mkOBB getMilli reader minLevel maxLevel segment k
        :: profileList mkOBB getMilli reader minLevel maxLevel rest (k + 1)

end Profile

/-! ## Polyline parser of `main` -/

/-- The block of `main` that turns the argument `coordinates` into the vector
`polyline`. `replaceAll` and `split` are the helpers of `stuff.h`, `stod` is
`std::stod` (`none` when it throws); the result is `none` when a vertex has
fewer than two tokens or `stod` throws. -/
def parsePolyline {D : Type} (replaceAll : String → String → String → String)
    (split : String → Char → List String) (stod : String → Option D)
    (strPolyline : String) : Option (List (dvec2 D)) :=
  let strPolyline := replaceAll strPolyline "\x7d,\x7b" "|"
  let strPolyline := replaceAll strPolyline " " ""
  let strPolyline := replaceAll strPolyline "\x7b" ""
  let strPolyline := replaceAll strPolyline "\x7d" ""
  let polylineTokens := split strPolyline '|'
  polylineTokens.mapM (fun token =>
    let vertexTokens := split token ','
    match vertexTokens[0]?, vertexTokens[1]? with
    | some tx, some ty =>
        match stod tx, stod ty with
        | some x, some y => some ⟨x, y⟩
        | _, _ => none
    | _, _ => none)

/-- Replacement of every occurrence of `search`, scanning from the left; `fuel`
bounds the number of characters still to scan. -/
def replaceAllChars (search replacement : List Char) : Nat → List Char → List Char
  | 0, str => str
  | _ + 1, [] => []
  | fuel + 1, c :: str =>
      if search ≠ [] ∧ search.isPrefixOf (c :: str) then
        replacement ++ replaceAllChars search replacement fuel ((c :: str).drop search.length)
      else c :: replaceAllChars search replacement fuel str

/-- Modelled from the spec: `replaceAll` is defined in `stuff.h`, which is not
among the sources; the parser uses it to turn `},{` into `|` and to strip
spaces and braces, so every occurrence of the searched text is replaced. -/
def replaceAllStd (str search replacement : String) : String :=
  String.mk (replaceAllChars search.toList replacement.toList str.length str.toList)

/-- Tokens of a character list between occurrences of `delimiter`; `current`
holds the characters of the token being read, last one first. -/
def splitChars (delimiter : Char) : List Char → List Char → List (List Char)
  | [], current => if current = [] then [] else [current.reverse]
  | c :: str, current =>
      if c = delimiter then
        if current = [] then splitChars delimiter str []
        else current.reverse :: splitChars delimiter str []
      else splitChars delimiter str (c :: current)

/-- Modelled from the spec: `split` is defined in `stuff.h`, which is not among
the sources; the parser splits on `|` and then on `,`, so the string is cut at
every delimiter (empty tokens are not kept). -/
def splitStd (str : String) (delimiter : Char) : List String :=
  (splitChars delimiter str.toList []).map String.mk

/-- Decimal value of a string of digits, standing in for `std::stod` on
unsigned integer literals. -/
def stodDigits (str : String) : Option Int :=
  if str.toList ≠ [] ∧ str.toList.all Char.isDigit then
    some (str.toList.foldl (fun acc c => 10 * acc + (c.toNat - 48 : Nat)) 0)
  else none

/-! ## Reference counts for the diagnostic counters -/

section Counts

variable {D : Type}

mutual
/-- Number of visited nodes below and including a node: the node itself and,
for each present child that intersects the OBB and has level at most
`maxLevel`, the visited nodes of that child. -/
def visitedCount (obb : OBB D) (maxLevel : Int) : PRNode D → Nat
  | .mk _ _ cs _ => 1 + visitedCountSlots obb maxLevel cs
/-- Number of visited nodes below a list of child slots. -/
def visitedCountSlots (obb : OBB D) (maxLevel : Int) : List (Option (PRNode D)) → Nat
  | [] => 0
  | none :: cs => visitedCountSlots obb maxLevel cs
  | some c :: cs =>
      (if eligible obb maxLevel c then visitedCount obb maxLevel c else 0)
        + visitedCountSlots obb maxLevel cs
end

mutual
/-- Number of points stored in the visited nodes, below and including a node,
whose level is at least `minLevel`. -/
def visitedPoints (obb : OBB D) (minLevel maxLevel : Int) : PRNode D → Nat
  | .mk l _ cs ps =>
      (if l < minLevel then 0 else ps.length) + visitedPointsSlots obb minLevel maxLevel cs
/-- Number of such points below a list of child slots. -/
def visitedPointsSlots (obb : OBB D) (minLevel maxLevel : Int) :
    List (Option (PRNode D)) → Nat
  | [] => 0
  | none :: cs => visitedPointsSlots obb minLevel maxLevel cs
  | some c :: cs =>
      (if eligible obb maxLevel c then visitedPoints obb minLevel maxLevel c else 0)
        + visitedPointsSlots obb minLevel maxLevel cs
end

mutual
/-- All nodes of the subtree of a node, each listed once per child path, in the
order the work stack would pop them if no child were skipped. -/
def allNodes : PRNode D → List (PRNode D)
  | .mk l b cs ps => .mk l b cs ps :: allNodesSlots cs
/-- All nodes below a list of child slots. -/
def allNodesSlots : List (Option (PRNode D)) → List (PRNode D)
  | [] => []
  | none :: cs => allNodesSlots cs
  | some c :: cs => allNodesSlots cs ++ allNodes c
end

end Counts

/-! ## Further sample inputs -/

/-- Integer stand-in for the GLM operations: `atan` is 0 and `rotate` leaves
the matrix unchanged, the other operations are the exact matrix operations. -/
def intGlm : Glm Int where
  center bb := ⟨(bb.min.x + bb.max.x) / 2, (bb.min.y + bb.max.y) / 2, (bb.min.z + bb.max.z) / 2⟩
  size bb := ⟨bb.max.x - bb.min.x, bb.max.y - bb.min.y, bb.max.z - bb.min.z⟩
  atan _ _ := 0
  identity := scaleTranslate 1 1 1 0 0 0
  translate m v :=
    ⟨m.c0, m.c1, m.c2,
      ⟨m.c0.x * v.x + m.c1.x * v.y + m.c2.x * v.z + m.c3.x,
       m.c0.y * v.x + m.c1.y * v.y + m.c2.y * v.z + m.c3.y,
       m.c0.z * v.x + m.c1.z * v.y + m.c2.z * v.z + m.c3.z,
       m.c0.w * v.x + m.c1.w * v.y + m.c2.w * v.z + m.c3.w⟩⟩
  rotate m _ _ := m
  scale m v :=
    ⟨⟨m.c0.x * v.x, m.c0.y * v.x, m.c0.z * v.x, m.c0.w * v.x⟩,
     ⟨m.c1.x * v.y, m.c1.y * v.y, m.c1.z * v.y, m.c1.w * v.y⟩,
     ⟨m.c2.x * v.z, m.c2.y * v.z, m.c2.z * v.z, m.c2.w * v.z⟩, m.c3⟩
  mul m n :=
    ⟨intRuntime.transform m n.c0, intRuntime.transform m n.c1, intRuntime.transform m n.c2,
      intRuntime.transform m n.c3⟩

/-- A polyline of three vertices along the x axis. -/
def samplePolyline : List (dvec2 Int) := [⟨-1, 0⟩, ⟨1, 0⟩, ⟨3, 0⟩]

/-! ## Properties of the spatial filter -/

section FilterProofs

variable {D : Type}

theorem stackSize_pushChildren (obb : OBB D) (maxLevel : Int)
    (cs : List (Option (PRNode D))) (workload : List (PRNode D)) :
    stackSize (pushChildren obb maxLevel cs workload)
      ≤ PRNode.sizeSlots cs + stackSize workload := by
  induction cs generalizing workload with
  | nil => simp [pushChildren, PRNode.sizeSlots]
  | cons c cs ih =>
    cases c with
    | none => simpa [pushChildren, PRNode.sizeSlots] using ih workload
    | some child =>
      simp only [pushChildren, PRNode.sizeSlots]
      split
      · have := ih (child :: workload)
        simp only [stackSize] at this
        omega
      · have := ih workload
        omega

theorem PRNode.size_le_sizeSlots {c : PRNode D} {cs : List (Option (PRNode D))}
    (h : some c ∈ cs) : c.size ≤ PRNode.sizeSlots cs := by
  induction cs with
  | nil => cases h
  | cons a cs ih =>
    rcases List.mem_cons.mp h with h | h
    · subst h
      simp [PRNode.sizeSlots]
    · have := ih h
      cases a with
      | none => simpa [PRNode.sizeSlots] using this
      | some a => simp only [PRNode.sizeSlots]; omega

/-- Induction over the tree: a property holds of every node as soon as it
passes from the present children of a node to the node. -/
theorem PRNode.induct_children (motive : PRNode D → Prop)
    (step : ∀ n : PRNode D, (∀ c, some c ∈ n.children → motive c) → motive n) :
    ∀ n, motive n := by
  suffices h : ∀ k (n : PRNode D), n.size ≤ k → motive n from fun n => h n.size n le_rfl
  intro k
  induction k with
  | zero =>
    intro n hn
    cases n with
    | mk l b cs ps => simp [PRNode.size] at hn
  | succ k ih =>
    intro n hn
    apply step
    intro c hc
    apply ih
    cases n with
    | mk l b cs ps =>
      have : c.size ≤ PRNode.sizeSlots cs := PRNode.size_le_sizeSlots hc
      simp only [PRNode.size] at hn
      omega

theorem dfs_eq (obb : OBB D) (maxLevel : Int) (n : PRNode D) :
    dfs obb maxLevel n = n :: dfsSlots obb maxLevel n.children := by
  cases n with
  | mk l b cs ps => simp [dfs, PRNode.children]

theorem flatMap_dfs_pushChildren (obb : OBB D) (maxLevel : Int)
    (cs : List (Option (PRNode D))) (workload : List (PRNode D)) :
    (pushChildren obb maxLevel cs workload).flatMap (dfs obb maxLevel)
      = dfsSlots obb maxLevel cs ++ workload.flatMap (dfs obb maxLevel) := by
  induction cs generalizing workload with
  | nil => simp [pushChildren, dfsSlots]
  | cons c cs ih =>
    cases c with
    | none => simpa [pushChildren, dfsSlots] using ih workload
    | some child =>
      simp only [pushChildren, dfsSlots, eligible]
      split
      · rw [ih]
        simp
      · rw [ih]

/-- The work-stack loop returns the nodes already collected followed by the
pop order of the subtrees on the stack. -/
theorem selectNodes_eq (obb : OBB D) (maxLevel : Int) :
    ∀ (k : Nat) (workload acc : List (PRNode D)), stackSize workload ≤ k →
      selectNodes obb maxLevel workload acc = acc ++ workload.flatMap (dfs obb maxLevel) := by
  intro k
  induction k with
  | zero =>
    intro workload acc h
    cases workload with
    | nil => simp [selectNodes]
    | cons n ns =>
      cases n with
      | mk l b cs ps => simp [stackSize, PRNode.size] at h
  | succ k ih =>
    intro workload acc h
    cases workload with
    | nil => simp [selectNodes]
    | cons n ns =>
      rw [selectNodes, ih, flatMap_dfs_pushChildren]
      · simp [dfs_eq]
      · have h2 := stackSize_pushChildren obb maxLevel n.children ns
        cases n with
        | mk l b cs ps =>
          simp only [PRNode.children] at h2 ⊢
          simp only [stackSize, PRNode.size] at h
          omega

theorem selectNodes_root (obb : OBB D) (maxLevel : Int) (root : PRNode D) :
    selectNodes obb maxLevel [root] [] = dfs obb maxLevel root := by
  rw [selectNodes_eq obb maxLevel _ [root] [] le_rfl]
  simp

theorem filterPoints_fst (obb : OBB D) (ps : List (Point D)) (acc : List (Point D)) (k : Int) :
    (filterPoints obb ps (acc, k)).1 = acc ++ ps.filter (fun p => obb.inside p.position) := by
  induction ps generalizing acc k with
  | nil => simp [filterPoints]
  | cons p ps ih =>
    simp only [filterPoints]
    split
    · rename_i h
      rw [ih]
      simp [List.filter_cons, h]
    · rename_i h
      rw [ih]
      simp [List.filter_cons, h]

theorem filterNodes_fst (obb : OBB D) (minLevel : Int) (ns : List (PRNode D))
    (st : List (Point D) × Int) :
    (filterNodes obb minLevel ns st).1 = st.1 ++ ns.flatMap (emitted obb minLevel) := by
  induction ns generalizing st with
  | nil => simp [filterNodes]
  | cons n ns ih =>
    simp only [filterNodes]
    split
    · rename_i h
      rw [ih]
      simp [emitted, h]
    · rename_i h
      rw [ih]
      obtain ⟨acc, k⟩ := st
      rw [filterPoints_fst]
      simp [emitted, h]

/-- The accepted points are the contributions of the visited nodes in pop
order. -/
theorem getPointsInBox_points (mkOBB : dmat4 D → OBB D) (reader : PotreeReader D) (box : dmat4 D)
    (minLevel maxLevel : Int) :
    (getPointsInBox mkOBB reader box minLevel maxLevel).points
      = (dfs (mkOBB box) maxLevel reader.root).flatMap (emitted (mkOBB box) minLevel) := by
  simp [getPointsInBox, selectNodes_root, filterNodes_fst]

theorem mem_dfsSlots (obb : OBB D) (maxLevel : Int) (n : PRNode D)
    (cs : List (Option (PRNode D))) :
    n ∈ dfsSlots obb maxLevel cs ↔
      ∃ c, some c ∈ cs ∧ eligible obb maxLevel c = true ∧ n ∈ dfs obb maxLevel c := by
  induction cs with
  | nil => simp [dfsSlots]
  | cons a cs ih =>
    cases a with
    | none => simpa [dfsSlots] using ih
    | some a =>
      simp only [dfsSlots]
      split
      · rename_i h
        rw [List.mem_append, ih]
        constructor
        · rintro (⟨c, hc, he, hn⟩ | hn)
          · exact ⟨c, List.mem_cons_of_mem _ hc, he, hn⟩
          · exact ⟨a, List.mem_cons_self _ _, h, hn⟩
        · rintro ⟨c, hc, he, hn⟩
          rcases List.mem_cons.mp hc with hc | hc
          · cases hc
            exact Or.inr hn
          · exact Or.inl ⟨c, hc, he, hn⟩
      · rename_i h
        rw [ih]
        constructor
        · rintro ⟨c, hc, he, hn⟩
          exact ⟨c, List.mem_cons_of_mem _ hc, he, hn⟩
        · rintro ⟨c, hc, he, hn⟩
          rcases List.mem_cons.mp hc with hc | hc
          · cases hc
            exact absurd he h
          · exact ⟨c, hc, he, hn⟩

theorem eligible_iff (obb : OBB D) (maxLevel : Int) (c : PRNode D) :
    eligible obb maxLevel c = true ↔
      obb.intersects c.boundingBox = true ∧ c.level ≤ maxLevel := by
  simp [eligible]

theorem Visited.trans {obb : OBB D} {maxLevel : Int} {r c n : PRNode D}
    (h1 : Visited obb maxLevel r c) (h2 : Visited obb maxLevel c n) :
    Visited obb maxLevel r n := by
  induction h2 with
  | root => exact h1
  | child m k _ hk hi hl ih => exact Visited.child m k ih hk hi hl

theorem visited_of_mem_dfs (obb : OBB D) (maxLevel : Int) :
    ∀ (r n : PRNode D), n ∈ dfs obb maxLevel r → Visited obb maxLevel r n := by
  intro r
  induction r using PRNode.induct_children with
  | step r ih =>
    intro n hn
    rw [dfs_eq, List.mem_cons] at hn
    rcases hn with hn | hn
    · subst hn
      exact Visited.root
    · obtain ⟨c, hc, he, hn⟩ := (mem_dfsSlots obb maxLevel n r.children).mp hn
      have hcv : Visited obb maxLevel r c :=
        Visited.child r c Visited.root hc ((eligible_iff _ _ _).mp he).1
          ((eligible_iff _ _ _).mp he).2
      exact hcv.trans (ih c hc n hn)

theorem dfs_closed (obb : OBB D) (maxLevel : Int) :
    ∀ (r n c : PRNode D), n ∈ dfs obb maxLevel r → some c ∈ n.children →
      eligible obb maxLevel c = true → c ∈ dfs obb maxLevel r := by
  intro r
  induction r using PRNode.induct_children with
  | step r ih =>
    intro n c hn hc he
    rw [dfs_eq, List.mem_cons] at hn
    rw [dfs_eq, List.mem_cons]
    right
    rcases hn with hn | hn
    · subst hn
      exact (mem_dfsSlots obb maxLevel c n.children).mpr
        ⟨c, hc, he, by rw [dfs_eq]; exact List.mem_cons_self _ _⟩
    · obtain ⟨c0, hc0, he0, hn0⟩ := (mem_dfsSlots obb maxLevel n r.children).mp hn
      exact (mem_dfsSlots obb maxLevel c r.children).mpr
        ⟨c0, hc0, he0, ih c0 hc0 n c hn0 hc he⟩

theorem mem_dfs_of_visited (obb : OBB D) (maxLevel : Int) (r n : PRNode D)
    (h : Visited obb maxLevel r n) : n ∈ dfs obb maxLevel r := by
  induction h with
  | root => rw [dfs_eq]; exact List.mem_cons_self _ _
  | child m k _ hk hi hl ih =>
    exact dfs_closed obb maxLevel r m k ih hk ((eligible_iff _ _ _).mpr ⟨hi, hl⟩)

theorem mem_emitted (obb : OBB D) (minLevel : Int) (n : PRNode D) (p : Point D) :
    p ∈ emitted obb minLevel n ↔
      minLevel ≤ n.level ∧ p ∈ n.points ∧ obb.inside p.position = true := by
  unfold emitted
  split
  · rename_i h
    simp only [List.not_mem_nil, false_iff]
    intro h2
    omega
  · rename_i h
    simp only [List.mem_filter]
    constructor
    · rintro ⟨h1, h2⟩
      exact ⟨by omega, h1, h2⟩
    · rintro ⟨_, h1, h2⟩
      exact ⟨h1, h2⟩

/-- Membership in the result: a point is accepted exactly when a visited node
at or above `minLevel` stores it and the OBB contains it. -/
theorem mem_getPointsInBox_points (mkOBB : dmat4 D → OBB D) (reader : PotreeReader D)
    (box : dmat4 D) (minLevel maxLevel : Int) (p : Point D) :
    p ∈ (getPointsInBox mkOBB reader box minLevel maxLevel).points ↔
      ∃ n, Visited (mkOBB box) maxLevel reader.root n ∧ minLevel ≤ n.level ∧ p ∈ n.points ∧
        (mkOBB box).inside p.position = true := by
  rw [getPointsInBox_points, List.mem_flatMap]
  constructor
  · rintro ⟨n, hn, hp⟩
    exact ⟨n, visited_of_mem_dfs _ _ _ _ hn, (mem_emitted _ _ _ _).mp hp⟩
  · rintro ⟨n, hn, hp⟩
    exact ⟨n, mem_dfs_of_visited _ _ _ _ hn, (mem_emitted _ _ _ _).mpr hp⟩

theorem sublist_flatMap_left {α β : Type} (f : α → List β) {l₁ l₂ : List α}
    (h : l₁.Sublist l₂) : (l₁.flatMap f).Sublist (l₂.flatMap f) := by
  induction h with
  | slnil => simp
  | cons a _ ih =>
    rw [List.flatMap_cons]
    exact ih.trans (List.sublist_append_right _ _)
  | cons₂ a _ ih =>
    rw [List.flatMap_cons, List.flatMap_cons]
    exact List.Sublist.append (List.Sublist.refl _) ih

theorem sublist_flatMap_right {α β : Type} (f g : α → List β) (l : List α)
    (h : ∀ a ∈ l, (f a).Sublist (g a)) : (l.flatMap f).Sublist (l.flatMap g) := by
  induction l with
  | nil => simp
  | cons a l ih =>
    rw [List.flatMap_cons, List.flatMap_cons]
    exact List.Sublist.append (h a (List.mem_cons_self _ _))
      (ih (fun b hb => h b (List.mem_cons_of_mem _ hb)))

theorem eligible_mono (obb : OBB D) {maxLevel maxLevel' : Int} (h : maxLevel ≤ maxLevel')
    (c : PRNode D) (he : eligible obb maxLevel c = true) : eligible obb maxLevel' c = true := by
  rw [eligible_iff] at he ⊢
  exact ⟨he.1, le_trans he.2 h⟩

theorem dfsSlots_sublist (obb : OBB D) {maxLevel maxLevel' : Int} (h : maxLevel ≤ maxLevel')
    (cs : List (Option (PRNode D)))
    (ih : ∀ c, some c ∈ cs → (dfs obb maxLevel c).Sublist (dfs obb maxLevel' c)) :
    (dfsSlots obb maxLevel cs).Sublist (dfsSlots obb maxLevel' cs) := by
  induction cs with
  | nil => simp [dfsSlots]
  | cons a cs ihc =>
    have hcs := ihc (fun c hc => ih c (List.mem_cons_of_mem _ hc))
    cases a with
    | none => simpa [dfsSlots] using hcs
    | some a =>
      simp only [dfsSlots]
      by_cases he : eligible obb maxLevel a = true
      · rw [if_pos he, if_pos (eligible_mono obb h a he)]
        exact List.Sublist.append hcs (ih a (List.mem_cons_self _ _))
      · rw [if_neg he]
        split
        · exact hcs.trans (List.sublist_append_left _ _)
        · exact hcs

/-- Raising `maxLevel` keeps the visited nodes and their order. -/
theorem dfs_sublist (obb : OBB D) {maxLevel maxLevel' : Int} (h : maxLevel ≤ maxLevel') :
    ∀ r : PRNode D, (dfs obb maxLevel r).Sublist (dfs obb maxLevel' r) := by
  intro r
  induction r using PRNode.induct_children with
  | step r ih =>
    rw [dfs_eq, dfs_eq]
    exact List.Sublist.cons₂ _ (dfsSlots_sublist obb h r.children ih)

theorem emitted_sublist (obb : OBB D) {minLevel minLevel' : Int} (h : minLevel ≤ minLevel')
    (n : PRNode D) : (emitted obb minLevel' n).Sublist (emitted obb minLevel n) := by
  unfold emitted
  by_cases h1 : n.level < minLevel'
  · rw [if_pos h1]
    exact List.nil_sublist _
  · rw [if_neg h1, if_neg (by omega)]

theorem level_le_of_mem_dfsSlots (obb : OBB D) (maxLevel : Int) :
    ∀ (r n : PRNode D), n ∈ dfsSlots obb maxLevel r.children → n.level ≤ maxLevel := by
  intro r
  induction r using PRNode.induct_children with
  | step r ih =>
    intro n hn
    obtain ⟨c, hc, he, hn⟩ := (mem_dfsSlots obb maxLevel n r.children).mp hn
    rw [dfs_eq, List.mem_cons] at hn
    rcases hn with hn | hn
    · subst hn
      exact ((eligible_iff _ _ _).mp he).2
    · exact ih c hc n hn

theorem visited_inTree {obb : OBB D} {maxLevel : Int} {r n : PRNode D}
    (h : Visited obb maxLevel r n) : InTree r n := by
  induction h with
  | root => exact InTree.root
  | child m k _ hk _ _ ih => exact InTree.child m k ih hk

end FilterProofs

/-! ## Soundness, completeness and level laws of `getPointsInBox` -/

/-- C1. Soundness of `getPointsInBox`: every point of the returned `points`
satisfies `obb.inside` on its position for the OBB built from the box, and is
stored in a node that the traversal visited (and that is not below
`minLevel`). -/
theorem getPointsInBox_sound {D : Type} (mkOBB : dmat4 D → OBB D) (reader : PotreeReader D)
    (box : dmat4 D) (minLevel maxLevel : Int) (p : Point D)
    (hp : p ∈ (getPointsInBox mkOBB reader box minLevel maxLevel).points) :
    (mkOBB box).inside p.position = true ∧
      ∃ n, Visited (mkOBB box) maxLevel reader.root n ∧ minLevel ≤ n.level ∧ p ∈ n.points := by
  obtain ⟨n, hv, hl, hm, hi⟩ := (mem_getPointsInBox_points mkOBB reader box minLevel maxLevel p).mp hp
  exact ⟨hi, n, hv, hl, hm⟩

theorem getPointsInBox_sound_witness :
    samplePoint (-1) 0 0 ∈ (getPointsInBox axisAlignedOBB (sampleReader twoLevelTree) unitQuery 0 1).points ∧
    ((axisAlignedOBB unitQuery).inside (samplePoint (-1) 0 0).position = true ∧
      ∃ n, Visited (axisAlignedOBB unitQuery) 1 twoLevelTree n ∧ 0 ≤ n.level ∧
        samplePoint (-1) 0 0 ∈ n.points) :=
  have h : samplePoint (-1) 0 0
      ∈ (getPointsInBox axisAlignedOBB (sampleReader twoLevelTree) unitQuery 0 1).points := by
    rw [getPointsInBox_points]
    decide
  ⟨h, getPointsInBox_sound axisAlignedOBB (sampleReader twoLevelTree) unitQuery 0 1 (samplePoint (-1) 0 0) h⟩

/-- Completeness over the visited nodes: a point stored in a visited node whose
level is at least `minLevel` is returned if and only if the OBB contains it. -/
theorem getPointsInBox_complete_visited {D : Type} (mkOBB : dmat4 D → OBB D)
    (reader : PotreeReader D) (box : dmat4 D) (minLevel maxLevel : Int) (n : PRNode D)
    (p : Point D) (hv : Visited (mkOBB box) maxLevel reader.root n) (hl : minLevel ≤ n.level)
    (hp : p ∈ n.points) :
    p ∈ (getPointsInBox mkOBB reader box minLevel maxLevel).points ↔
      (mkOBB box).inside p.position = true := by
  rw [mem_getPointsInBox_points]
  constructor
  · rintro ⟨_, _, _, _, hi⟩
    exact hi
  · intro hi
    exact ⟨n, hv, hl, hp, hi⟩

/-- C3. Level pruning law on a fixed tree and box: with `maxLevel ≤ maxLevel'`
the multiset of points accepted for `(minLevel, maxLevel)` is contained in the
one accepted for `(minLevel, maxLevel')`, and with `minLevel ≤ minLevel'` the
multiset accepted for `(minLevel', maxLevel)` is contained in the one accepted
for `(minLevel, maxLevel)`. -/
theorem getPointsInBox_level_pruning {D : Type} (mkOBB : dmat4 D → OBB D) (reader : PotreeReader D)
    (box : dmat4 D) (minLevel minLevel' maxLevel maxLevel' : Int)
    (hmax : maxLevel ≤ maxLevel') (hmin : minLevel ≤ minLevel') :
    ((getPointsInBox mkOBB reader box minLevel maxLevel).points : Multiset (Point D))
        ≤ ((getPointsInBox mkOBB reader box minLevel maxLevel').points : Multiset (Point D)) ∧
    ((getPointsInBox mkOBB reader box minLevel' maxLevel).points : Multiset (Point D))
        ≤ ((getPointsInBox mkOBB reader box minLevel maxLevel).points : Multiset (Point D)) := by
  simp only [getPointsInBox_points, Multiset.coe_le]
  exact ⟨(sublist_flatMap_left _ (dfs_sublist (mkOBB box) hmax reader.root)).subperm,
    (sublist_flatMap_right _ _ _ (fun n _ => emitted_sublist (mkOBB box) hmin n)).subperm⟩

theorem getPointsInBox_level_pruning_witness :
    ((getPointsInBox axisAlignedOBB (sampleReader twoLevelTree) unitQuery 0 0).points : Multiset (Point Int))
        ≤ ((getPointsInBox axisAlignedOBB (sampleReader twoLevelTree) unitQuery 0 1).points
            : Multiset (Point Int)) ∧
    ((getPointsInBox axisAlignedOBB (sampleReader twoLevelTree) unitQuery 1 0).points : Multiset (Point Int))
        ≤ ((getPointsInBox axisAlignedOBB (sampleReader twoLevelTree) unitQuery 0 0).points
            : Multiset (Point Int)) :=
  getPointsInBox_level_pruning axisAlignedOBB (sampleReader twoLevelTree) unitQuery 0 1 0 1
    (by decide) (by decide)

/-- C4 as stated fails: with `minLevel = 0` and `maxLevel = -1` the root of
`singlePointTree` (level 0) is still visited and not below `minLevel`, so its
point is returned. -/
theorem getPointsInBox_inverted_levels_counterexample :
    singlePointTree.level = 0 ∧ (0 : Int) > -1 ∧
      (getPointsInBox axisAlignedOBB (sampleReader singlePointTree) unitQuery 0 (-1)).points
        = [samplePoint 0 0 0] := by
  refine ⟨rfl, by decide, ?_⟩
  rw [getPointsInBox_points]
  decide

/-- C4, amended. For every tree whose root has level 0 and every box, if
`minLevel > maxLevel` and `minLevel > 0` then `getPointsInBox` returns an empty
points vector; if `minLevel > maxLevel` and `minLevel ≤ 0` it returns exactly
the points of the root that are inside the OBB. -/
theorem getPointsInBox_inverted_levels {D : Type} (mkOBB : dmat4 D → OBB D)
    (reader : PotreeReader D) (box : dmat4 D) (minLevel maxLevel : Int)
    (hroot : reader.root.level = 0) (hlev : minLevel > maxLevel) :
    (getPointsInBox mkOBB reader box minLevel maxLevel).points
      = if 0 < minLevel then []
        else reader.root.points.filter (fun p => (mkOBB box).inside p.position) := by
  rw [getPointsInBox_points, dfs_eq, List.flatMap_cons]
  have hrest : (dfsSlots (mkOBB box) maxLevel reader.root.children).flatMap
      (emitted (mkOBB box) minLevel) = [] := by
    rw [List.flatMap_eq_nil_iff]
    intro n hn
    have := level_le_of_mem_dfsSlots (mkOBB box) maxLevel reader.root n hn
    unfold emitted
    rw [if_pos (by omega)]
  rw [hrest, List.append_nil]
  unfold emitted
  rw [hroot]

theorem getPointsInBox_inverted_levels_witness :
    twoLevelTree.level = 0 ∧ (1 : Int) > 0 ∧
      (getPointsInBox axisAlignedOBB (sampleReader twoLevelTree) unitQuery 1 0).points
        = if (0 : Int) < 1 then []
          else twoLevelTree.points.filter
            (fun p => (axisAlignedOBB unitQuery).inside p.position) :=
  ⟨rfl, by decide,
    getPointsInBox_inverted_levels axisAlignedOBB (sampleReader twoLevelTree) unitQuery 1 0 rfl (by decide)⟩

/-! ## Properties of the LAS encoder -/

section LasProofs

variable {D : Type}

theorem length_leBytes (n : Nat) (x : Int) : (leBytes n x).length = n := by
  induction n generalizing x with
  | zero => rfl
  | succ n ih => simp [leBytes, ih]

theorem length_rawDouble (R : Runtime D) (d : D) : (rawDouble R d).length = 8 :=
  length_leBytes 8 _

theorem length_rawVec3 (R : Runtime D) (v : dvec3 D) : (rawVec3 R v).length = 24 := by
  simp [rawVec3, length_rawDouble]

theorem length_lasHeader (R : Runtime D) (reader : PotreeReader D) (numPoints : Nat) :
    (lasHeader R reader numPoints).length = 227 := by
  simp [lasHeader, length_leBytes, length_rawDouble, length_rawVec3, zeroes, bytesOfString]

theorem length_lasRecord (R : Runtime D) (bb : AABB D) (scale : dvec3 D) (p : Point D) :
    (lasRecord R bb scale p).length = 26 := by
  simp [lasRecord, length_leBytes]

/-- Filling the fresh buffer or a buffer left by an earlier point yields the
record of the point: bytes 14..19 are never stored to. -/
theorem lasFillBuffer_eq (R : Runtime D) (bb : AABB D) (scale : dvec3 D) (buffer : List Nat)
    (p : Point D)
    (h : buffer = List.replicate 26 0 ∨ ∃ q, buffer = lasRecord R bb scale q) :
    lasFillBuffer R bb scale buffer p = lasRecord R bb scale p := by
  rcases h with h | ⟨q, h⟩
  · subst h
    simp [lasFillBuffer, lasRecord, leBytes, poke, List.replicate]
  · subst h
    simp [lasFillBuffer, lasRecord, leBytes, poke]

theorem lasWritePoints_eq (R : Runtime D) (bb : AABB D) (scale : dvec3 D)
    (ps : List (Point D)) (buffer : List Nat)
    (h : buffer = List.replicate 26 0 ∨ ∃ q, buffer = lasRecord R bb scale q) :
    (lasWritePoints R bb scale ps buffer).1 = ps.flatMap (lasRecord R bb scale) ∧
      ((lasWritePoints R bb scale ps buffer).2 = List.replicate 26 0 ∨
        ∃ q, (lasWritePoints R bb scale ps buffer).2 = lasRecord R bb scale q) := by
  induction ps generalizing buffer with
  | nil => exact ⟨rfl, h⟩
  | cons p ps ih =>
    have hfill := lasFillBuffer_eq R bb scale buffer p h
    have hrec := ih (lasFillBuffer R bb scale buffer p) (Or.inr ⟨p, hfill⟩)
    simp only [lasWritePoints, List.flatMap_cons]
    refine ⟨?_, hrec.2⟩
    rw [hrec.1, hfill, List.take_of_length_le (by rw [length_lasRecord])]

theorem lasWriteResults_eq (R : Runtime D) (bb : AABB D) (scale : dvec3 D)
    (results : List (FilterResult D)) (buffer : List Nat)
    (h : buffer = List.replicate 26 0 ∨ ∃ q, buffer = lasRecord R bb scale q) :
    (lasWriteResults R bb scale results buffer).1
        = (acceptedPoints results).flatMap (lasRecord R bb scale) ∧
      ((lasWriteResults R bb scale results buffer).2 = List.replicate 26 0 ∨
        ∃ q, (lasWriteResults R bb scale results buffer).2 = lasRecord R bb scale q) := by
  induction results generalizing buffer with
  | nil => exact ⟨rfl, h⟩
  | cons result rest ih =>
    have hhere := lasWritePoints_eq R bb scale result.points buffer h
    have hafter := ih _ hhere.2
    simp only [lasWriteResults, acceptedPoints, List.flatMap_cons, List.flatMap_append]
    refine ⟨?_, hafter.2⟩
    rw [hhere.1, hafter.1]
    rfl

/-- The LAS stream is the header followed by the records of the accepted
points. -/
theorem saveLAS_eq (R : Runtime D) (reader : PotreeReader D)
    (results : List (FilterResult D)) :
    saveLAS R reader results
      = lasHeader R reader (lasNumPoints results 0)
        ++ (acceptedPoints results).flatMap
            (lasRecord R reader.metadata.boundingBox reader.metadata.scale) := by
  simp only [saveLAS]
  rw [(lasWriteResults_eq R _ _ results _ (Or.inl rfl)).1]

theorem length_flatMap_const {α β : Type} (f : α → List β) (c : Nat)
    (hf : ∀ a, (f a).length = c) (l : List α) : (l.flatMap f).length = c * l.length := by
  induction l with
  | nil => simp
  | cons a l ih => simp [List.flatMap_cons, hf, ih, Nat.mul_succ, Nat.add_comm]

theorem length_acceptedPoints (results : List (FilterResult D)) :
    (acceptedPoints results).length = pointsAccepted results := by
  induction results with
  | nil => rfl
  | cons r rs ih =>
    simp only [acceptedPoints, pointsAccepted, List.flatMap_cons, List.length_append,
      List.map_cons, List.sum_cons] at ih ⊢
    rw [ih]

theorem drop_flatMap_const {α β : Type} (f : α → List β) (c : Nat)
    (hf : ∀ a, (f a).length = c) (l : List α) (k : Nat) :
    (l.flatMap f).drop (c * k) = (l.drop k).flatMap f := by
  induction k generalizing l with
  | zero => simp
  | succ k ih =>
    cases l with
    | nil => simp
    | cons a l =>
      rw [List.flatMap_cons, List.drop_succ_cons, ← ih l, Nat.mul_succ, Nat.add_comm,
        ← hf a, List.drop_append]

/-- In a concatenation of blocks of `c` bytes, the block at offset `c · k` is
the block of the `k`-th element. -/
theorem block_flatMap_const {α β : Type} (f : α → List β) (c : Nat)
    (hf : ∀ a, (f a).length = c) (l : List α) (k : Nat) (a : α) (h : l[k]? = some a) :
    ((l.flatMap f).drop (c * k)).take c = f a := by
  rw [drop_flatMap_const f c hf]
  obtain ⟨hk, ha⟩ := List.getElem?_eq_some.mp h
  rw [List.drop_eq_getElem_cons hk, ha, List.flatMap_cons, ← hf a, List.take_left]

end LasProofs

/-- C5. LAS byte-length law: the stream written by `saveLAS` has length exactly
`227 + 26 · pointsAccepted`, where `pointsAccepted` is the sum of
`result.points.size()` over all results, and the header fields written before
the first record total exactly 227 bytes. -/
theorem saveLAS_length {D : Type} (R : Runtime D) (reader : PotreeReader D)
    (results : List (FilterResult D)) :
    (saveLAS R reader results).length = 227 + 26 * pointsAccepted results ∧
      (lasHeader R reader (lasNumPoints results 0)).length = 227 ∧
      (saveLAS R reader results).take 227 = lasHeader R reader (lasNumPoints results 0) := by
  have hh := length_lasHeader R reader (lasNumPoints results 0)
  refine ⟨?_, hh, ?_⟩
  · rw [saveLAS_eq, List.length_append, hh,
      length_flatMap_const _ 26 (length_lasRecord R _ _), length_acceptedPoints]
  · rw [saveLAS_eq, ← hh, List.take_left]

/-- C6. LAS record round trip: for the `k`-th accepted point `p` (counting
across the results in order) the 26 bytes at offset `227 + 26·k` of the
`saveLAS` output decode, as three little-endian i32 at bytes 0..11, a
little-endian u16 at bytes 12..13 and three little-endian u16 at bytes 20..25,
to the quantized integers the encoder computed, the point's 16-bit intensity
and its 8-bit r, g, b channels; bytes 14..19 are zero. -/
theorem saveLAS_record_roundtrip {D : Type} (R : Runtime D) (reader : PotreeReader D)
    (results : List (FilterResult D)) (k : Nat) (p : Point D)
    (hk : (acceptedPoints results)[k]? = some p) (hp : p.InRange) :
    (((saveLAS R reader results).drop (227 + 26 * k)).take 26).length = 26 ∧
    leDecodeI32 ((((saveLAS R reader results).drop (227 + 26 * k)).take 26).take 4)
      = (lasQuantize R reader.metadata.boundingBox reader.metadata.scale p).1 ∧
    leDecodeI32 (((((saveLAS R reader results).drop (227 + 26 * k)).take 26).drop 4).take 4)
      = (lasQuantize R reader.metadata.boundingBox reader.metadata.scale p).2.1 ∧
    leDecodeI32 (((((saveLAS R reader results).drop (227 + 26 * k)).take 26).drop 8).take 4)
      = (lasQuantize R reader.metadata.boundingBox reader.metadata.scale p).2.2 ∧
    leDecode (((((saveLAS R reader results).drop (227 + 26 * k)).take 26).drop 12).take 2)
      = p.intensity ∧
    ((((saveLAS R reader results).drop (227 + 26 * k)).take 26).drop 14).take 6
      = [0, 0, 0, 0, 0, 0] ∧
    leDecode (((((saveLAS R reader results).drop (227 + 26 * k)).take 26).drop 20).take 2)
      = p.r ∧
    leDecode (((((saveLAS R reader results).drop (227 + 26 * k)).take 26).drop 22).take 2)
      = p.g ∧
    leDecode (((((saveLAS R reader results).drop (227 + 26 * k)).take 26).drop 24).take 2)
      = p.b := by
  have hrec : ((saveLAS R reader results).drop (227 + 26 * k)).take 26
      = lasRecord R reader.metadata.boundingBox reader.metadata.scale p := by
    rw [saveLAS_eq, ← length_lasHeader R reader (lasNumPoints results 0), List.drop_append]
    exact block_flatMap_const _ 26 (length_lasRecord R _ _) _ k p hk
  obtain ⟨hr, hg, hb, hi, _⟩ := hp
  rw [hrec]
  refine ⟨length_lasRecord R _ _ p, ?_⟩
  simp only [lasRecord, lasQuantize, leBytes, List.cons_append, List.nil_append,
    List.take_succ_cons, List.take_zero, List.drop_succ_cons, List.drop_zero, leDecode,
    leDecodeI32, List.length_cons, List.length_nil]
  unfold wrapInt32
  push_cast
  refine ⟨by omega, by omega, by omega, by omega, ?_, by omega, by omega, by omega⟩
  trivial

theorem saveLAS_record_roundtrip_witness :
    (acceptedPoints sampleResults)[2]? = some (samplePoint 1 1 0) ∧
    (samplePoint 1 1 0).InRange ∧
    leDecode (((((saveLAS intRuntime (sampleReader singlePointTree) sampleResults).drop
        (227 + 26 * 2)).take 26).drop 12).take 2) = (samplePoint 1 1 0).intensity :=
  have hk : (acceptedPoints sampleResults)[2]? = some (samplePoint 1 1 0) := by decide
  have hp : (samplePoint 1 1 0).InRange := by
    simp [Point.InRange, samplePoint]
  ⟨hk, hp,
    (saveLAS_record_roundtrip intRuntime (sampleReader singlePointTree) sampleResults 2
      (samplePoint 1 1 0) hk hp).2.2.2.2.1⟩

/-! ## Properties of the POTREE encoder -/

section PotreeProofs

variable {D : Type}

theorem wrapInt32_add_left (a b : Int) : wrapInt32 (wrapInt32 a + b) = wrapInt32 (a + b) := by
  unfold wrapInt32
  omega

theorem wrapInt32_of_lt (n : Nat) (h : n < 2147483648) : wrapInt32 n = n := by
  unfold wrapInt32
  omega

theorem accumulate_pointsAccepted (R : Runtime D) (results : List (FilterResult D))
    (t : Totals D) (a : Int) (ht : t.pointsAccepted = wrapInt32 a) :
    (accumulate R results t).pointsAccepted = wrapInt32 (a + pointsAccepted results) := by
  induction results generalizing t a with
  | nil => simpa [accumulate, pointsAccepted] using ht
  | cons r rs ih =>
    simp only [accumulate, pointsAccepted, List.map_cons, List.sum_cons] at ih ⊢
    rw [ih _ (a + r.points.length) (by simp only [ht, wrapInt32_add_left])]
    push_cast
    rw [add_assoc]

theorem potreeTotals_pointsAccepted (R : Runtime D) (results : List (FilterResult D)) :
    (potreeTotals R results).pointsAccepted = wrapInt32 (pointsAccepted results) := by
  have h := accumulate_pointsAccepted R results (initialTotals R) 0 rfl
  rw [zero_add] at h
  exact h

theorem length_bytesOfString (s : String) : (bytesOfString s).length = s.length := by
  unfold bytesOfString
  rw [List.length_map]
  rfl

theorem length_encodeAttribute (R : Runtime D) (obb : OBB D) (min localMin : dvec3 D)
    (mileage scale : D) (p : Point D) (a : PointAttribute) :
    (encodeAttribute R obb min localMin mileage scale p a).length = a.byteSize := by
  cases a <;> simp [encodeAttribute, PointAttribute.byteSize, length_leBytes]

theorem length_encodePoint (R : Runtime D) (obb : OBB D) (min localMin : dvec3 D)
    (mileage scale : D) (pa : PointAttributes) (p : Point D) :
    (encodePoint R obb min localMin mileage scale pa p).length = pa.byteSize := by
  unfold encodePoint PointAttributes.byteSize
  induction pa.attributes with
  | nil => rfl
  | cons a l ih => simp [List.flatMap_cons, length_encodeAttribute, ih]

theorem length_encodeResults (R : Runtime D) (mkOBB : dmat4 D → OBB D) (min : dvec3 D)
    (scale : D) (pa : PointAttributes) (results : List (FilterResult D)) (mileage : D) :
    (encodeResults R mkOBB min scale pa results mileage).length
      = pointsAccepted results * pa.byteSize := by
  induction results generalizing mileage with
  | nil => simp [encodeResults, pointsAccepted]
  | cons r rs ih =>
    simp only [encodeResults, List.length_append, ih, pointsAccepted, List.map_cons,
      List.sum_cons]
    rw [length_flatMap_const _ pa.byteSize (length_encodePoint R _ _ _ _ _ pa)]
    ring

theorem leDecode_leBytes_length (n : Nat) (h : n < 4294967296) :
    leDecode (leBytes 4 (wrapInt32 n)) = n := by
  simp only [leBytes, leDecode]
  unfold wrapInt32
  omega

theorem split_three {α : Type} (a b c : List α) (n m : Nat) (ha : a.length = n)
    (hb : b.length = m) :
    (a ++ b ++ c).take n = a ∧ ((a ++ b ++ c).drop n).take m = b ∧
      (a ++ b ++ c).drop (n + m) = c := by
  subst ha hb
  refine ⟨?_, ?_, ?_⟩
  · rw [List.append_assoc, List.take_left]
  · rw [List.append_assoc, List.drop_left, List.take_left]
  · rw [← List.length_append, List.drop_left]

end PotreeProofs

/-- C7. POTREE header/body consistency, for a header shorter than 2^32 bytes
and fewer than 2^31 accepted points (the ranges of the 32-bit variables
`headerSize` and `pointsAccepted`): the first 4 bytes of the output of
`savePotree` are the little-endian length of the JSON header that follows, the
header's `"points"` value is the sum of `result.points.size()`, and the bytes
after the header number `points · bytesPerPoint`, where `bytesPerPoint` is the
schema's `byteSize`, the sum of the attributes' byte sizes
(12, 8, 4, 3, 2, 1, or the declared size). -/
theorem savePotree_header_body {D : Type} (R : Runtime D) (mkOBB : dmat4 D → OBB D)
    (results : List (FilterResult D)) (pointAttributes : PointAttributes)
    (hpoints : pointsAccepted results < 2147483648)
    (hheader : (potreeHeader R (potreeTotals R results) pointAttributes (R.lit 1 3)).length
      < 4294967296) :
    leDecode ((savePotree R mkOBB results pointAttributes).take 4)
      = (potreeHeader R (potreeTotals R results) pointAttributes (R.lit 1 3)).length ∧
    ((savePotree R mkOBB results pointAttributes).drop 4).take
        (potreeHeader R (potreeTotals R results) pointAttributes (R.lit 1 3)).length
      = bytesOfString (potreeHeader R (potreeTotals R results) pointAttributes (R.lit 1 3)) ∧
    (∃ rest, potreeHeader R (potreeTotals R results) pointAttributes (R.lit 1 3)
      = "\x7b\n" ++ ("\t\"points\": " ++ toString (pointsAccepted results) ++ ",\n") ++ rest) ∧
    ((savePotree R mkOBB results pointAttributes).drop
        (4 + (potreeHeader R (potreeTotals R results) pointAttributes (R.lit 1 3)).length)).length
      = pointsAccepted results * pointAttributes.byteSize ∧
    pointAttributes.byteSize = (pointAttributes.attributes.map PointAttribute.byteSize).sum ∧
    PointAttribute.byteSize .POSITION_CARTESIAN = 12 ∧
    PointAttribute.byteSize .POSITION_PROJECTED_PROFILE = 8 ∧
    PointAttribute.byteSize .COLOR_PACKED = 4 ∧
    PointAttribute.byteSize .RGB = 3 ∧
    PointAttribute.byteSize .INTENSITY = 2 ∧
    PointAttribute.byteSize .CLASSIFICATION = 1 ∧
    ∀ name size, PointAttribute.byteSize (.other name size) = size := by
  have hsplit := split_three
    (leBytes 4 (wrapInt32
      (potreeHeader R (potreeTotals R results) pointAttributes (R.lit 1 3)).length))
    (bytesOfString (potreeHeader R (potreeTotals R results) pointAttributes (R.lit 1 3)))
    (encodeResults R mkOBB (potreeTotals R results).min (R.lit 1 3) pointAttributes results
      (R.lit 0 0))
    4 _ (length_leBytes 4 _) (length_bytesOfString _)
  have hsave : savePotree R mkOBB results pointAttributes
      = leBytes 4 (wrapInt32
          (potreeHeader R (potreeTotals R results) pointAttributes (R.lit 1 3)).length)
        ++ bytesOfString (potreeHeader R (potreeTotals R results) pointAttributes (R.lit 1 3))
        ++ encodeResults R mkOBB (potreeTotals R results).min (R.lit 1 3) pointAttributes
            results (R.lit 0 0) := rfl
  refine ⟨?_, ?_, ?_, ?_, rfl, rfl, rfl, rfl, rfl, rfl, rfl, fun _ _ => rfl⟩
  · rw [hsave, hsplit.1]
    exact leDecode_leBytes_length _ hheader
  · rw [hsave, hsplit.2.1]
  · simp only [potreeHeader, potreeTotals_pointsAccepted, wrapInt32_of_lt _ hpoints,
      String.append_assoc]
    exact ⟨_, rfl⟩
  · rw [hsave, hsplit.2.2, length_encodeResults]

set_option maxRecDepth 100000 in
theorem savePotree_header_body_witness :
    leDecode ((savePotree intRuntime axisAlignedOBB sampleResults
        ⟨[.POSITION_CARTESIAN, .RGB, .other "NORMAL" 12]⟩).take 4)
      = (potreeHeader intRuntime (potreeTotals intRuntime sampleResults)
          ⟨[.POSITION_CARTESIAN, .RGB, .other "NORMAL" 12]⟩ (intRuntime.lit 1 3)).length :=
  (savePotree_header_body intRuntime axisAlignedOBB sampleResults
    ⟨[.POSITION_CARTESIAN, .RGB, .other "NORMAL" 12]⟩ (by decide)
    (by decide)).1

/-! ## Properties of the output dispatcher -/

/-- C9. Attribute schema resolution in `save`: when the key `output-attributes`
is present, the schema handed to the encoder is the list of
`PointAttribute::fromString` of the supplied names, in the supplied order,
whatever the dataset's stored schema is (so `INTENSITY RGB` gives
`bytesPerPoint = 5`); when it is absent, the schema is the dataset's stored
attribute list with `POSITION_PROJECTED_PROFILE` appended as last element. -/
theorem save_schema {D : Type} (R : Runtime D) (mkOBB : dmat4 D → OBB D)
    (fromString : String → PointAttribute) (reader : PotreeReader D)
    (results : List (FilterResult D)) (args : Arguments) :
    (args.hasKey "output-attributes" = true →
      (save R mkOBB fromString reader results args).pointAttributes.attributes
        = (args.get "output-attributes").map fromString) ∧
    (args.hasKey "output-attributes" = true → ∀ reader' : PotreeReader D,
      (save R mkOBB fromString reader' results args).pointAttributes
        = (save R mkOBB fromString reader results args).pointAttributes) ∧
    (args.hasKey "output-attributes" = false →
      (save R mkOBB fromString reader results args).pointAttributes.attributes
        = reader.metadata.pointAttributes.attributes
          ++ [PointAttribute.POSITION_PROJECTED_PROFILE]) ∧
    ((save R mkOBB fromString reader results args).encoder = some Encoder.savePotree →
      (save R mkOBB fromString reader results args).written
        = savePotree R mkOBB results
            (save R mkOBB fromString reader results args).pointAttributes) ∧
    (args.hasKey "output-attributes" = true →
      args.get "output-attributes" = ["INTENSITY", "RGB"] →
      fromString "INTENSITY" = PointAttribute.INTENSITY →
      fromString "RGB" = PointAttribute.RGB →
      (save R mkOBB fromString reader results args).pointAttributes.byteSize = 5) := by
  refine ⟨?_, ?_, ?_, ?_, ?_⟩
  · intro h
    simp [save, h]
  · intro h reader'
    simp [save, h]
  · intro h
    simp [save, h]
  · intro h
    simp only [save] at h ⊢
    split at h
    · simp_all
    · split at h <;> simp_all
  · intro h hget hi hr
    simp [save, h, hget, hi, hr, PointAttributes.byteSize, PointAttribute.byteSize]

theorem save_schema_witness :
    (save intRuntime axisAlignedOBB sampleFromString (sampleReader singlePointTree)
      sampleResults
      (argumentsOfList [("stdout", []), ("output-attributes", ["INTENSITY", "RGB"])])
      ).pointAttributes.byteSize = 5 :=
  (save_schema intRuntime axisAlignedOBB sampleFromString (sampleReader singlePointTree)
    sampleResults
    (argumentsOfList [("stdout", []), ("output-attributes", ["INTENSITY", "RGB"])])).2.2.2.2
    (by decide) (by decide) (by decide) (by decide)

/-- A null pointer is used by `save` exactly when neither or both of the keys
`stdout` and `o` are present: with neither, `out` stays null and is passed to
the encoder and to `flush()`; with both, `out` is `&cout`, whose
`dynamic_cast` to `ofstream*` is null when `close()` is called on it. -/
theorem save_nullUsed {D : Type} (R : Runtime D) (mkOBB : dmat4 D → OBB D)
    (fromString : String → PointAttribute) (reader : PotreeReader D)
    (results : List (FilterResult D)) (args : Arguments) :
    (save R mkOBB fromString reader results args).nullUsed = true ↔
      (args.hasKey "stdout" = false ∧ args.hasKey "o" = false) ∨
      (args.hasKey "stdout" = true ∧ args.hasKey "o" = true) := by
  cases h1 : args.hasKey "stdout" <;> cases h2 : args.hasKey "o" <;> simp [save, h1, h2]

/-- C10 fails on the code at both kinds of input it names. With neither the `o`
key nor the `stdout` key, `save` prints the error but goes on: `out` is null,
the POTREE encoder is still called with it and a null pointer is used. With
both keys, nothing is printed, the POTREE encoder is called on standard output
and a null pointer is used afterwards, when `close()` is called on the
`dynamic_cast` of `&cout`. -/
theorem save_sink_failing_inputs :
    ((save intRuntime axisAlignedOBB sampleFromString (sampleReader singlePointTree)
        sampleResults (argumentsOfList [])).cerr
      = ["ERROR: No output specified. Either -o <file> or --stdout have to be specified"] ∧
    (save intRuntime axisAlignedOBB sampleFromString (sampleReader singlePointTree)
        sampleResults (argumentsOfList [])).out = none ∧
    (save intRuntime axisAlignedOBB sampleFromString (sampleReader singlePointTree)
        sampleResults (argumentsOfList [])).encoder = some Encoder.savePotree ∧
    (save intRuntime axisAlignedOBB sampleFromString (sampleReader singlePointTree)
        sampleResults (argumentsOfList [])).nullUsed = true) ∧
    ((save intRuntime axisAlignedOBB sampleFromString (sampleReader singlePointTree)
        sampleResults (argumentsOfList [("o", ["out.bin"]), ("stdout", [])])).cerr = [] ∧
    (save intRuntime axisAlignedOBB sampleFromString (sampleReader singlePointTree)
        sampleResults (argumentsOfList [("o", ["out.bin"]), ("stdout", [])])).out
      = some Sink.stdout ∧
    (save intRuntime axisAlignedOBB sampleFromString (sampleReader singlePointTree)
        sampleResults (argumentsOfList [("o", ["out.bin"]), ("stdout", [])])).encoder
      = some Encoder.savePotree ∧
    (save intRuntime axisAlignedOBB sampleFromString (sampleReader singlePointTree)
        sampleResults (argumentsOfList [("o", ["out.bin"]), ("stdout", [])])).nullUsed
      = true) := by
  refine ⟨⟨?_, ?_, ?_, ?_⟩, ⟨?_, ?_, ?_, ?_⟩⟩ <;> simp [save, argumentsOfList, List.lookup]

/-! ## Properties of the profile driver -/

section ProfileProofs

variable {D : Type}

theorem segmentBound_of_pos (n : Nat) (h : 1 ≤ n) (hlt : n < 2147483648) :
    segmentBound n = n - 1 := by
  unfold segmentBound
  omega

theorem segmentsFrom_drop (R : Runtime D) (G : Glm D) (bb : AABB D) (width : D)
    (polyline : List (dvec2 D)) (i : Nat) (a b : dvec2 D) (ha : polyline[i]? = some a)
    (hb : polyline[i + 1]? = some b) :
    segmentsFrom R G bb width (polyline.drop i)
      = ⟨a, b, segmentBox R G bb width a b⟩
        :: segmentsFrom R G bb width (polyline.drop (i + 1)) := by
  obtain ⟨hi, hai⟩ := List.getElem?_eq_some.mp ha
  obtain ⟨hj, hbj⟩ := List.getElem?_eq_some.mp hb
  rw [List.drop_eq_getElem_cons hi, List.drop_eq_getElem_cons hj, hai, hbj]
  simp only [segmentsFrom]

theorem segmentsFrom_drop_last (R : Runtime D) (G : Glm D) (bb : AABB D) (width : D)
    (polyline : List (dvec2 D)) (i : Nat) (h : polyline.length ≤ i + 1) :
    segmentsFrom R G bb width (polyline.drop i) = [] := by
  have hlen : (polyline.drop i).length ≤ 1 := by
    rw [List.length_drop]
    omega
  match hd : polyline.drop i with
  | [] => rfl
  | [_] => rfl
  | _ :: _ :: _ =>
    rw [hd] at hlen
    simp at hlen

/-- The index loop yields the segments of the consecutive pairs when the
polyline has at least one and fewer than 2^31 vertices. -/
theorem buildSegments_eq (R : Runtime D) (G : Glm D) (bb : AABB D) (width : D)
    (polyline : List (dvec2 D)) (hlt : polyline.length < 2147483648) :
    ∀ (k i : Nat) (segments : List (Segment D)), polyline.length - 1 - i ≤ k →
      i ≤ polyline.length - 1 →
      buildSegments R G bb width polyline (polyline.length - 1) i segments
        = some (segments ++ segmentsFrom R G bb width (polyline.drop i)) := by
  intro k
  induction k with
  | zero =>
    intro i segments hk hi
    rw [buildSegments, if_neg (by omega),
      segmentsFrom_drop_last R G bb width polyline i (by omega), List.append_nil]
  | succ k ih =>
    intro i segments hk hi
    by_cases hlast : i < polyline.length - 1
    · have hi0 : i < polyline.length := by omega
      have hi1 : i + 1 < polyline.length := by omega
      have ha : polyline[i]? = some polyline[i] := List.getElem?_eq_getElem hi0
      have hb : polyline[i + 1]? = some polyline[i + 1] := List.getElem?_eq_getElem hi1
      have hint : i + 1 < intLimit := by
        unfold intLimit
        omega
      rw [buildSegments, if_pos hlast]
      simp only [ha, hb]
      rw [if_pos hint, ih (i + 1) _ (by omega) (by omega),
        segmentsFrom_drop R G bb width polyline i _ _ ha hb]
      simp
    · rw [buildSegments, if_neg hlast,
        segmentsFrom_drop_last R G bb width polyline i (by omega), List.append_nil]

theorem profileLoop_eq (mkOBB : dmat4 D → OBB D) (getMilli : Nat → Int)
    (reader : PotreeReader D) (minLevel maxLevel : Int) (segments : List (Segment D))
    (k : Nat) (results : List (FilterResult D)) :
    profileLoop mkOBB getMilli reader minLevel maxLevel segments k results
      = results ++ profileList mkOBB getMilli reader minLevel maxLevel segments k := by
  induction segments generalizing k results with
  | nil => simp [profileLoop, profileList]
  | cons segment rest ih => simp [profileLoop, profileList, ih]

theorem buildSegments_all (R : Runtime D) (G : Glm D) (bb : AABB D) (width : D)
    (polyline : List (dvec2 D)) (h1 : 1 ≤ polyline.length)
    (hlt : polyline.length < 2147483648) :
    buildSegments R G bb width polyline (segmentBound polyline.length) 0 []
      = some (segmentsFrom R G bb width polyline) := by
  rw [segmentBound_of_pos _ h1 hlt,
    buildSegments_eq R G bb width polyline hlt _ 0 [] le_rfl (Nat.zero_le _)]
  rfl

/-- On a polyline of at least one and fewer than 2^31 vertices the driver
returns the results of the consecutive pairs, in order. -/
theorem getPointsInProfile_eq (R : Runtime D) (G : Glm D) (mkOBB : dmat4 D → OBB D)
    (getMilli : Nat → Int) (reader : PotreeReader D) (polyline : List (dvec2 D)) (width : D)
    (minLevel maxLevel : Int) (h1 : 1 ≤ polyline.length)
    (hlt : polyline.length < 2147483648) :
    getPointsInProfile R G mkOBB getMilli reader polyline width minLevel maxLevel
      = some (profileList mkOBB getMilli reader minLevel maxLevel
          (segmentsFrom R G reader.metadata.boundingBox width polyline) 0) := by
  simp only [getPointsInProfile,
    buildSegments_all R G reader.metadata.boundingBox width polyline h1 hlt, profileLoop_eq,
    List.nil_append]

/-- On the empty polyline the loop bound wraps around and the first iteration
reads `polyline[0]` past the end of the vector. -/
theorem getPointsInProfile_empty (R : Runtime D) (G : Glm D) (mkOBB : dmat4 D → OBB D)
    (getMilli : Nat → Int) (reader : PotreeReader D) (width : D) (minLevel maxLevel : Int) :
    getPointsInProfile R G mkOBB getMilli reader [] width minLevel maxLevel = none := by
  have hb : segmentBound ([] : List (dvec2 D)).length = 18446744073709551615 := by
    unfold segmentBound
    rfl
  unfold getPointsInProfile
  simp only
  rw [hb, buildSegments, if_pos (by omega)]
  rfl

theorem length_segmentsFrom (R : Runtime D) (G : Glm D) (bb : AABB D) (width : D)
    (polyline : List (dvec2 D)) :
    (segmentsFrom R G bb width polyline).length = polyline.length - 1 := by
  induction polyline with
  | nil => rfl
  | cons a rest ih =>
    cases rest with
    | nil => rfl
    | cons b rest =>
      simp only [segmentsFrom, List.length_cons] at ih ⊢
      omega

theorem length_profileList (mkOBB : dmat4 D → OBB D) (getMilli : Nat → Int)
    (reader : PotreeReader D) (minLevel maxLevel : Int) (segments : List (Segment D))
    (k : Nat) :
    (profileList mkOBB getMilli reader minLevel maxLevel segments k).length
      = segments.length := by
  induction segments generalizing k with
  | nil => rfl
  | cons segment rest ih => simp [profileList, ih]

theorem getElem?_segmentsFrom (R : Runtime D) (G : Glm D) (bb : AABB D) (width : D)
    (polyline : List (dvec2 D)) (i : Nat) (a b : dvec2 D) (ha : polyline[i]? = some a)
    (hb : polyline[i + 1]? = some b) :
    (segmentsFrom R G bb width polyline)[i]? = some ⟨a, b, segmentBox R G bb width a b⟩ := by
  induction polyline generalizing i with
  | nil => simp at ha
  | cons v rest ih =>
    cases rest with
    | nil => simp at hb
    | cons w rest =>
      cases i with
      | zero =>
        simp only [List.getElem?_cons_zero, Option.some.injEq, zero_add,
          List.getElem?_cons_succ] at ha hb
        subst ha hb
        simp [segmentsFrom]
      | succ i =>
        simp only [List.getElem?_cons_succ] at ha hb
        simp only [segmentsFrom, List.getElem?_cons_succ]
        exact ih i ha (by simpa using hb)

theorem getElem?_profileList (mkOBB : dmat4 D → OBB D) (getMilli : Nat → Int)
    (reader : PotreeReader D) (minLevel maxLevel : Int) (segments : List (Segment D))
    (k i : Nat) (segment : Segment D) (h : segments[i]? = some segment) :
    (profileList mkOBB getMilli reader minLevel maxLevel segments k)[i]?
      = some (segmentResult mkOBB getMilli reader minLevel maxLevel segment (k + i)) := by
  induction segments generalizing k i with
  | nil => simp at h
  | cons s rest ih =>
    cases i with
    | zero =>
      simp only [List.getElem?_cons_zero, Option.some.injEq] at h
      subst h
      simp [profileList]
    | succ i =>
      simp only [List.getElem?_cons_succ] at h
      simp only [profileList, List.getElem?_cons_succ]
      rw [ih (k + 1) i h]
      congr 2
      omega

theorem wrapInt32_idem (x : Int) : wrapInt32 (wrapInt32 x) = wrapInt32 x := by
  unfold wrapInt32
  omega

theorem filterPoints_snd_inRange (obb : OBB D) (ps : List (Point D)) (acc : List (Point D))
    (k : Int) (hk : wrapInt32 k = k) :
    wrapInt32 (filterPoints obb ps (acc, k)).2 = (filterPoints obb ps (acc, k)).2 := by
  induction ps generalizing acc k with
  | nil => simpa [filterPoints] using hk
  | cons p ps ih =>
    simp only [filterPoints]
    split
    · exact ih _ _ (wrapInt32_idem _)
    · exact ih _ _ (wrapInt32_idem _)

theorem filterNodes_snd_inRange (obb : OBB D) (minLevel : Int) (ns : List (PRNode D))
    (st : List (Point D) × Int) (hk : wrapInt32 st.2 = st.2) :
    wrapInt32 (filterNodes obb minLevel ns st).2 = (filterNodes obb minLevel ns st).2 := by
  induction ns generalizing st with
  | nil => simpa [filterNodes] using hk
  | cons n ns ih =>
    simp only [filterNodes]
    split
    · exact ih st hk
    · obtain ⟨acc, k⟩ := st
      exact ih _ (filterPoints_snd_inRange obb n.points acc k hk)

/-- The result pushed for a segment repeats what `getPointsInBox` returned for
the segment's box. -/
theorem segmentResult_eq (mkOBB : dmat4 D → OBB D) (getMilli : Nat → Int)
    (reader : PotreeReader D) (minLevel maxLevel : Int) (segment : Segment D) (k : Nat) :
    (segmentResult mkOBB getMilli reader minLevel maxLevel segment k).box = segment.box ∧
    (segmentResult mkOBB getMilli reader minLevel maxLevel segment k).points
      = (getPointsInBox mkOBB reader segment.box minLevel maxLevel).points ∧
    (segmentResult mkOBB getMilli reader minLevel maxLevel segment k).pointsProcessed
      = (getPointsInBox mkOBB reader segment.box minLevel maxLevel).pointsProcessed ∧
    (segmentResult mkOBB getMilli reader minLevel maxLevel segment k).nodesProcessed
      = (getPointsInBox mkOBB reader segment.box minLevel maxLevel).nodesProcessed := by
  refine ⟨rfl, by simp [segmentResult], ?_, ?_⟩
  · simp only [segmentResult, zero_add, getPointsInBox]
    exact filterNodes_snd_inRange _ _ _ _ rfl
  · simp only [segmentResult, zero_add, getPointsInBox]
    exact wrapInt32_idem _

end ProfileProofs

/-- C11. Segment count and order in `getPointsInProfile`: for a polyline of
`N ≥ 2` vertices (fewer than 2^31, the range of the loop counter `int i`) the
returned vector has exactly `N - 1` results, and for every `i < N - 1` the
`i`-th result has the box built from `polyline[i]` and `polyline[i+1]` and the
points, `pointsProcessed` and `nodesProcessed` of `getPointsInBox` applied to
that box. -/
theorem getPointsInProfile_segments {D : Type} (R : Runtime D) (G : Glm D)
    (mkOBB : dmat4 D → OBB D) (getMilli : Nat → Int) (reader : PotreeReader D)
    (polyline : List (dvec2 D)) (width : D) (minLevel maxLevel : Int)
    (hN : 2 ≤ polyline.length) (hlt : polyline.length < 2147483648) :
    ∃ results,
      getPointsInProfile R G mkOBB getMilli reader polyline width minLevel maxLevel
        = some results ∧
      results.length = polyline.length - 1 ∧
      ∀ (i : Nat) (a b : dvec2 D), polyline[i]? = some a → polyline[i + 1]? = some b →
        ∃ r, results[i]? = some r ∧
          r.box = segmentBox R G reader.metadata.boundingBox width a b ∧
          r.box = (getPointsInBox mkOBB reader
            (segmentBox R G reader.metadata.boundingBox width a b) minLevel maxLevel).box ∧
          r.points = (getPointsInBox mkOBB reader
            (segmentBox R G reader.metadata.boundingBox width a b) minLevel maxLevel).points ∧
          r.pointsProcessed = (getPointsInBox mkOBB reader
            (segmentBox R G reader.metadata.boundingBox width a b)
            minLevel maxLevel).pointsProcessed ∧
          r.nodesProcessed = (getPointsInBox mkOBB reader
            (segmentBox R G reader.metadata.boundingBox width a b)
            minLevel maxLevel).nodesProcessed := by
  refine ⟨_, getPointsInProfile_eq R G mkOBB getMilli reader polyline width minLevel maxLevel
    (by omega) hlt, ?_, ?_⟩
  · rw [length_profileList, length_segmentsFrom]
  · intro i a b ha hb
    have hseg := getElem?_segmentsFrom R G reader.metadata.boundingBox width polyline i a b
      ha hb
    have hres := getElem?_profileList mkOBB getMilli reader minLevel maxLevel _ 0 i _ hseg
    have heq := segmentResult_eq mkOBB getMilli reader minLevel maxLevel
      ⟨a, b, segmentBox R G reader.metadata.boundingBox width a b⟩ (0 + i)
    exact ⟨_, hres, heq.1, heq.1, heq.2.1, heq.2.2.1, heq.2.2.2⟩

theorem getPointsInProfile_segments_witness :
    ∃ results,
      getPointsInProfile intRuntime intGlm axisAlignedOBB (fun _ => 7)
        (sampleReader twoLevelTree) samplePolyline 2 0 1 = some results ∧
      results.length = samplePolyline.length - 1 ∧
      ∀ (i : Nat) (a b : dvec2 Int), samplePolyline[i]? = some a →
        samplePolyline[i + 1]? = some b →
        ∃ r, results[i]? = some r ∧
          r.box = segmentBox intRuntime intGlm
            (sampleReader twoLevelTree).metadata.boundingBox 2 a b ∧
          r.box = (getPointsInBox axisAlignedOBB (sampleReader twoLevelTree)
            (segmentBox intRuntime intGlm (sampleReader twoLevelTree).metadata.boundingBox
              2 a b) 0 1).box ∧
          r.points = (getPointsInBox axisAlignedOBB (sampleReader twoLevelTree)
            (segmentBox intRuntime intGlm (sampleReader twoLevelTree).metadata.boundingBox
              2 a b) 0 1).points ∧
          r.pointsProcessed = (getPointsInBox axisAlignedOBB (sampleReader twoLevelTree)
            (segmentBox intRuntime intGlm (sampleReader twoLevelTree).metadata.boundingBox
              2 a b) 0 1).pointsProcessed ∧
          r.nodesProcessed = (getPointsInBox axisAlignedOBB (sampleReader twoLevelTree)
            (segmentBox intRuntime intGlm (sampleReader twoLevelTree).metadata.boundingBox
              2 a b) 0 1).nodesProcessed :=
  getPointsInProfile_segments intRuntime intGlm axisAlignedOBB (fun _ => 7)
    (sampleReader twoLevelTree) samplePolyline 2 0 1 (by decide) (by decide)

/-- C12 as stated fails: for a polyline of one vertex the loop bound
`polyline.size() - 1` is 0, no segment is built and `getPointsInProfile`
returns an empty vector of results instead of failing. -/
theorem getPointsInProfile_short_counterexample :
    ([⟨0, 0⟩] : List (dvec2 Int)).length < 2 ∧
      getPointsInProfile intRuntime intGlm axisAlignedOBB (fun _ => 7)
        (sampleReader twoLevelTree) [⟨0, 0⟩] 2 0 1 = some [] := by
  refine ⟨by decide, ?_⟩
  rw [getPointsInProfile_eq _ _ _ _ _ _ _ _ _ (by decide) (by decide)]
  rfl

/-- C12, amended. For every polyline of exactly one vertex `getPointsInProfile`
returns normally with an empty vector of results: it has no check of the
number of vertices and reports no error. -/
theorem getPointsInProfile_short {D : Type} (R : Runtime D) (G : Glm D)
    (mkOBB : dmat4 D → OBB D) (getMilli : Nat → Int) (reader : PotreeReader D)
    (polyline : List (dvec2 D)) (width : D) (minLevel maxLevel : Int)
    (hN : polyline.length = 1) :
    getPointsInProfile R G mkOBB getMilli reader polyline width minLevel maxLevel
      = some [] := by
  rw [getPointsInProfile_eq R G mkOBB getMilli reader polyline width minLevel maxLevel
    (by omega) (by omega)]
  match polyline, hN with
  | [_], _ => rfl

theorem getPointsInProfile_short_witness :
    getPointsInProfile intRuntime intGlm axisAlignedOBB (fun _ => 7)
      (sampleReader singlePointTree) [⟨3, 4⟩] 2 0 1 = some [] :=
  getPointsInProfile_short intRuntime intGlm axisAlignedOBB (fun _ => 7)
    (sampleReader singlePointTree) [⟨3, 4⟩] 2 0 1 rfl

/-- C14 fails on the code: `main` replaces `},{` by `|` before it removes the
spaces, so a space between `},` and `{` keeps the two groups from being
separated. The literal `{0,0}, {1,1}` is parsed to the single vertex `(0, 0)`,
while the literal without the space is parsed to the two vertices `(0, 0)` and
`(1, 1)`. -/
theorem parsePolyline_space_between_groups :
    parsePolyline replaceAllStd splitStd stodDigits "\x7b0,0\x7d, \x7b1,1\x7d"
      = some [⟨0, 0⟩] ∧
    parsePolyline replaceAllStd splitStd stodDigits "\x7b0,0\x7d,\x7b1,1\x7d"
      = some [⟨0, 0⟩, ⟨1, 1⟩] := by
  constructor <;> decide

/-- C15. When the output format is `CSV` and exactly one of the keys `stdout`
and `o` selects the sink, `save` calls no encoder, writes zero bytes to the
sink, reports nothing on `cerr` and uses no null pointer, for every list of
results. -/
theorem save_csv {D : Type} (R : Runtime D) (mkOBB : dmat4 D → OBB D)
    (fromString : String → PointAttribute) (reader : PotreeReader D)
    (results : List (FilterResult D)) (args : Arguments)
    (hformat : args.getOr "output-format" 0 "POTREE" = "CSV")
    (hsink : (args.hasKey "stdout" = true ∧ args.hasKey "o" = false) ∨
      (args.hasKey "stdout" = false ∧ args.hasKey "o" = true)) :
    (save R mkOBB fromString reader results args).written = [] ∧
    (save R mkOBB fromString reader results args).encoder = none ∧
    (save R mkOBB fromString reader results args).cerr = [] ∧
    (save R mkOBB fromString reader results args).out ≠ none ∧
    (save R mkOBB fromString reader results args).nullUsed = false := by
  rcases hsink with ⟨h1, h2⟩ | ⟨h1, h2⟩ <;> simp [save, hformat, h1, h2]

theorem save_csv_witness :
    (save intRuntime axisAlignedOBB sampleFromString (sampleReader singlePointTree)
      sampleResults
      (argumentsOfList [("stdout", []), ("output-format", ["CSV"])])).written = [] :=
  (save_csv intRuntime axisAlignedOBB sampleFromString (sampleReader singlePointTree)
    sampleResults (argumentsOfList [("stdout", []), ("output-format", ["CSV"])])
    (by decide) (Or.inl ⟨by decide, by decide⟩)).1

/-- C18 fails on the code for a declared size above 8: the bytes are taken from
the 8-byte variable `filler`, so for an attribute of 12 bytes the last four
bytes are read from the memory that follows it (170 in `intRuntime`) and are
not zero. For sizes up to 8 all bytes are zero. -/
theorem encodeAttribute_other_beyond_filler :
    encodeAttribute intRuntime (axisAlignedOBB unitQuery) ⟨0, 0, 0⟩ ⟨0, 0, 0⟩ 0 1
        (samplePoint 0 0 0) (.other "NORMAL" 12)
      = [0, 0, 0, 0, 0, 0, 0, 0, 170, 170, 170, 170] ∧
    encodeAttribute intRuntime (axisAlignedOBB unitQuery) ⟨0, 0, 0⟩ ⟨0, 0, 0⟩ 0 1
        (samplePoint 0 0 0) (.other "NORMAL_OCT16" 2) = [0, 0] := by
  constructor <;> decide
/-! ## The counts in the LAS header -/

section LasHeaderProofs

variable {D : Type}

theorem lasNumPoints_eq (results : List (FilterResult D)) (k : Nat) :
    lasNumPoints results (k % 4294967296) = (k + pointsAccepted results) % 4294967296 := by
  induction results generalizing k with
  | nil => simp [lasNumPoints, pointsAccepted]
  | cons r rs ih =>
    simp only [lasNumPoints, pointsAccepted, List.map_cons, List.sum_cons] at ih ⊢
    rw [ih]
    omega

theorem lasNumPoints_of_lt (results : List (FilterResult D))
    (h : pointsAccepted results < 4294967296) :
    lasNumPoints results 0 = pointsAccepted results := by
  have := lasNumPoints_eq results 0
  simp only [Nat.zero_mod, zero_add] at this
  rw [this]
  omega

theorem bytesOfString_signature : bytesOfString "LASF" = [76, 65, 83, 70] := by decide

theorem bytesOfString_systemId :
    bytesOfString "PotreeElevationProfile          "
      = [80, 111, 116, 114, 101, 101, 69, 108, 101, 118, 97, 116, 105, 111, 110, 80, 114,
          111, 102, 105, 108, 101, 32, 32, 32, 32, 32, 32, 32, 32, 32, 32] := by decide

/-- The first 131 bytes of the LAS header: the fixed fields, the two copies of
the point count and the four zero return counts. -/
theorem lasHeader_take (R : Runtime D) (reader : PotreeReader D) (numPoints : Nat) :
    (lasHeader R reader numPoints).take 131
      = [76, 65, 83, 70, 0, 0, 0, 0, 0, 0, 0, 0, 0, 0, 0, 0, 0, 0, 0, 0, 0, 0, 0, 0, 1, 2]
        ++ bytesOfString "PotreeElevationProfile          "
        ++ bytesOfString "PotreeElevationProfile          "
        ++ [0, 0, 0, 0, 227, 0, 227, 0, 0, 0, 0, 0, 0, 0, 2, 26, 0]
        ++ leBytes 4 numPoints ++ leBytes 4 numPoints
        ++ [0, 0, 0, 0, 0, 0, 0, 0, 0, 0, 0, 0, 0, 0, 0, 0] := by
  have h1 : zeroes 2 = [0, 0] := rfl
  have h2 : zeroes 4 = [0, 0, 0, 0] := rfl
  have h3 : zeroes 8 = [0, 0, 0, 0, 0, 0, 0, 0] := rfl
  have h4 : leBytes 1 1 = [1] := by decide
  have h5 : leBytes 1 2 = [2] := by decide
  have h6 : leBytes 2 0 = [0, 0] := by decide
  have h7 : leBytes 2 227 = [227, 0] := by decide
  have h8 : leBytes 4 227 = [227, 0, 0, 0] := by decide
  have h9 : leBytes 2 26 = [26, 0] := by decide
  simp only [lasHeader, h1, h2, h3, h4, h5, h6, h7, h8, h9, bytesOfString_signature,
    bytesOfString_systemId, leBytes, List.cons_append, List.nil_append, List.append_assoc,
    List.take_succ_cons, List.take_zero]
  rfl

theorem take_drop_of_take {α : Type} (l : List α) (n k m : Nat) (h : k + m ≤ n) :
    (l.drop k).take m = ((l.take n).drop k).take m := by
  rw [List.drop_take, List.take_take, Nat.min_eq_left (by omega)]

theorem saveLAS_take (R : Runtime D) (reader : PotreeReader D)
    (results : List (FilterResult D)) :
    (saveLAS R reader results).take 131
      = (lasHeader R reader (lasNumPoints results 0)).take 131 := by
  rw [saveLAS_eq, List.take_append_of_le_length (by rw [length_lasHeader]; omega)]

end LasHeaderProofs

/-- C16. LAS header counts, for fewer than 2^32 accepted points (the range of
the `unsigned int` count): in the `saveLAS` output the little-endian u32 at
offset 107 and the one at offset 111 both equal the sum of
`result.points.size()`, bytes 115..130 are zero, bytes 0..3 are `LASF`, bytes
24 and 25 are 1 and 2, byte 104 is 2 and the little-endian u16 at offset 105
is 26. -/
theorem saveLAS_header_counts {D : Type} (R : Runtime D) (reader : PotreeReader D)
    (results : List (FilterResult D)) (hcount : pointsAccepted results < 4294967296) :
    leDecode (((saveLAS R reader results).drop 107).take 4) = pointsAccepted results ∧
    leDecode (((saveLAS R reader results).drop 111).take 4) = pointsAccepted results ∧
    ((saveLAS R reader results).drop 115).take 16
      = [0, 0, 0, 0, 0, 0, 0, 0, 0, 0, 0, 0, 0, 0, 0, 0] ∧
    ((saveLAS R reader results).drop 0).take 4 = bytesOfString "LASF" ∧
    ((saveLAS R reader results).drop 24).take 2 = [1, 2] ∧
    ((saveLAS R reader results).drop 104).take 1 = [2] ∧
    leDecode (((saveLAS R reader results).drop 105).take 2) = 26 := by
  have hn := lasNumPoints_of_lt results hcount
  have htake := saveLAS_take R reader results
  rw [lasHeader_take, hn] at htake
  rw [take_drop_of_take _ 131 107 4 (by omega), take_drop_of_take _ 131 111 4 (by omega),
    take_drop_of_take _ 131 115 16 (by omega), take_drop_of_take _ 131 0 4 (by omega),
    take_drop_of_take _ 131 24 2 (by omega), take_drop_of_take _ 131 104 1 (by omega),
    take_drop_of_take _ 131 105 2 (by omega), htake]
  simp only [bytesOfString_systemId, bytesOfString_signature, leBytes, List.cons_append,
    List.nil_append, List.append_assoc, List.take_succ_cons, List.take_zero,
    List.drop_succ_cons, List.drop_zero, leDecode]
  refine ⟨by omega, by omega, trivial, trivial, trivial, trivial, trivial⟩

theorem saveLAS_header_counts_witness :
    leDecode (((saveLAS intRuntime (sampleReader singlePointTree) sampleResults).drop
      107).take 4) = pointsAccepted sampleResults :=
  (saveLAS_header_counts intRuntime (sampleReader singlePointTree) sampleResults
    (by decide)).1

/-! ## Diagnostic counters and the node-selection loop -/

section CounterProofs

variable {D : Type}

theorem visitedCount_eq (obb : OBB D) (maxLevel : Int) (n : PRNode D) :
    visitedCount obb maxLevel n = 1 + visitedCountSlots obb maxLevel n.children := by
  cases n with
  | mk l b cs ps => simp [visitedCount, PRNode.children]

theorem visitedPoints_eq (obb : OBB D) (minLevel maxLevel : Int) (n : PRNode D) :
    visitedPoints obb minLevel maxLevel n
      = (if n.level < minLevel then 0 else n.points.length)
        + visitedPointsSlots obb minLevel maxLevel n.children := by
  cases n with
  | mk l b cs ps => simp [visitedPoints, PRNode.children, PRNode.level, PRNode.points]

theorem allNodes_eq (n : PRNode D) : allNodes n = n :: allNodesSlots n.children := by
  cases n with
  | mk l b cs ps => simp [allNodes, PRNode.children]

theorem length_dfsSlots (obb : OBB D) (maxLevel : Int) (cs : List (Option (PRNode D)))
    (ih : ∀ c, some c ∈ cs → (dfs obb maxLevel c).length = visitedCount obb maxLevel c) :
    (dfsSlots obb maxLevel cs).length = visitedCountSlots obb maxLevel cs := by
  induction cs with
  | nil => rfl
  | cons a cs ihc =>
    have hcs := ihc (fun c hc => ih c (List.mem_cons_of_mem _ hc))
    cases a with
    | none => simpa [dfsSlots, visitedCountSlots] using hcs
    | some a =>
      simp only [dfsSlots, visitedCountSlots]
      split
      · rw [List.length_append, hcs, ih a (List.mem_cons_self _ _)]
        omega
      · rw [hcs]
        omega

/-- The pop order lists exactly the visited nodes. -/
theorem length_dfs (obb : OBB D) (maxLevel : Int) :
    ∀ n : PRNode D, (dfs obb maxLevel n).length = visitedCount obb maxLevel n := by
  intro n
  induction n using PRNode.induct_children with
  | step n ih =>
    rw [dfs_eq, visitedCount_eq, List.length_cons, length_dfsSlots obb maxLevel _ ih]
    omega

theorem sum_examined_dfsSlots (obb : OBB D) (minLevel maxLevel : Int)
    (cs : List (Option (PRNode D)))
    (ih : ∀ c, some c ∈ cs →
      ((dfs obb maxLevel c).map
          (fun n => if n.level < minLevel then 0 else n.points.length)).sum
        = visitedPoints obb minLevel maxLevel c) :
    ((dfsSlots obb maxLevel cs).map
        (fun n => if n.level < minLevel then 0 else n.points.length)).sum
      = visitedPointsSlots obb minLevel maxLevel cs := by
  induction cs with
  | nil => rfl
  | cons a cs ihc =>
    have hcs := ihc (fun c hc => ih c (List.mem_cons_of_mem _ hc))
    cases a with
    | none => simpa [dfsSlots, visitedPointsSlots] using hcs
    | some a =>
      simp only [dfsSlots, visitedPointsSlots]
      split
      · rw [List.map_append, List.sum_append, hcs, ih a (List.mem_cons_self _ _)]
        omega
      · rw [hcs]
        omega

/-- The points examined along the pop order are the points of the visited
nodes at or above `minLevel`. -/
theorem sum_examined_dfs (obb : OBB D) (minLevel maxLevel : Int) :
    ∀ n : PRNode D,
      ((dfs obb maxLevel n).map
          (fun m => if m.level < minLevel then 0 else m.points.length)).sum
        = visitedPoints obb minLevel maxLevel n := by
  intro n
  induction n using PRNode.induct_children with
  | step n ih =>
    rw [dfs_eq, visitedPoints_eq, List.map_cons, List.sum_cons,
      sum_examined_dfsSlots obb minLevel maxLevel _ ih]

theorem filterPoints_snd (obb : OBB D) (ps : List (Point D)) (acc : List (Point D)) (k : Int)
    (hk : wrapInt32 k = k) :
    (filterPoints obb ps (acc, k)).2 = wrapInt32 (k + ps.length) := by
  induction ps generalizing acc k with
  | nil => simpa [filterPoints] using hk.symm
  | cons p ps ih =>
    simp only [filterPoints]
    split
    · rw [ih _ _ (wrapInt32_idem _), wrapInt32_add_left, List.length_cons]
      push_cast
      rw [add_assoc, add_comm 1]
    · rw [ih _ _ (wrapInt32_idem _), wrapInt32_add_left, List.length_cons]
      push_cast
      rw [add_assoc, add_comm 1]

theorem filterNodes_snd (obb : OBB D) (minLevel : Int) (ns : List (PRNode D))
    (st : List (Point D) × Int) (hk : wrapInt32 st.2 = st.2) :
    (filterNodes obb minLevel ns st).2
      = wrapInt32 (st.2
          + ((ns.map (fun n => if n.level < minLevel then 0 else n.points.length)).sum
              : Nat)) := by
  induction ns generalizing st with
  | nil => simpa [filterNodes] using hk.symm
  | cons n ns ih =>
    simp only [filterNodes]
    split
    · rename_i h
      rw [ih st hk]
      simp [h]
    · rename_i h
      obtain ⟨acc, k⟩ := st
      rw [ih _ (filterPoints_snd_inRange obb n.points acc k hk), filterPoints_snd obb _ _ _ hk,
        wrapInt32_add_left]
      simp only [List.map_cons, List.sum_cons, if_neg h]
      push_cast
      rw [add_assoc]

theorem length_emitted_le (obb : OBB D) (minLevel : Int) (n : PRNode D) :
    (emitted obb minLevel n).length ≤ (if n.level < minLevel then 0 else n.points.length) := by
  unfold emitted
  split
  · simp
  · exact List.length_filter_le _ _

theorem length_flatMap_emitted_le (obb : OBB D) (minLevel : Int) (ns : List (PRNode D)) :
    (ns.flatMap (emitted obb minLevel)).length
      ≤ (ns.map (fun n => if n.level < minLevel then 0 else n.points.length)).sum := by
  induction ns with
  | nil => simp
  | cons n ns ih =>
    rw [List.flatMap_cons, List.length_append, List.map_cons, List.sum_cons]
    have := length_emitted_le obb minLevel n
    omega

theorem getPointsInBox_nodesProcessed (mkOBB : dmat4 D → OBB D) (reader : PotreeReader D)
    (box : dmat4 D) (minLevel maxLevel : Int) :
    (getPointsInBox mkOBB reader box minLevel maxLevel).nodesProcessed
      = wrapInt32 (visitedCount (mkOBB box) maxLevel reader.root) := by
  simp only [getPointsInBox, selectNodes_root, length_dfs]

theorem getPointsInBox_pointsProcessed (mkOBB : dmat4 D → OBB D) (reader : PotreeReader D)
    (box : dmat4 D) (minLevel maxLevel : Int) :
    (getPointsInBox mkOBB reader box minLevel maxLevel).pointsProcessed
      = wrapInt32 (visitedPoints (mkOBB box) minLevel maxLevel reader.root) := by
  simp only [getPointsInBox, selectNodes_root]
  rw [filterNodes_snd _ _ _ _ rfl, sum_examined_dfs]
  simp

theorem dfsSlots_sublist_allNodesSlots (obb : OBB D) (maxLevel : Int)
    (cs : List (Option (PRNode D)))
    (ih : ∀ c, some c ∈ cs → (dfs obb maxLevel c).Sublist (allNodes c)) :
    (dfsSlots obb maxLevel cs).Sublist (allNodesSlots cs) := by
  induction cs with
  | nil => simp [dfsSlots, allNodesSlots]
  | cons a cs ihc =>
    have hcs := ihc (fun c hc => ih c (List.mem_cons_of_mem _ hc))
    cases a with
    | none => simpa [dfsSlots, allNodesSlots] using hcs
    | some a =>
      simp only [dfsSlots, allNodesSlots]
      split
      · exact List.Sublist.append hcs (ih a (List.mem_cons_self _ _))
      · exact hcs.trans (List.sublist_append_left _ _)

/-- The pop order is a sublist of the list of all nodes of the tree. -/
theorem dfs_sublist_allNodes (obb : OBB D) (maxLevel : Int) :
    ∀ n : PRNode D, (dfs obb maxLevel n).Sublist (allNodes n) := by
  intro n
  induction n using PRNode.induct_children with
  | step n ih =>
    rw [dfs_eq, allNodes_eq]
    exact List.Sublist.cons₂ _ (dfsSlots_sublist_allNodesSlots obb maxLevel _ ih)

theorem length_allNodesSlots (cs : List (Option (PRNode D)))
    (ih : ∀ c, some c ∈ cs → (allNodes c).length = c.size) :
    (allNodesSlots cs).length = PRNode.sizeSlots cs := by
  induction cs with
  | nil => rfl
  | cons a cs ihc =>
    have hcs := ihc (fun c hc => ih c (List.mem_cons_of_mem _ hc))
    cases a with
    | none => simpa [allNodesSlots, PRNode.sizeSlots] using hcs
    | some a =>
      simp only [allNodesSlots, PRNode.sizeSlots, List.length_append, hcs,
        ih a (List.mem_cons_self _ _)]
      omega

theorem length_allNodes : ∀ n : PRNode D, (allNodes n).length = n.size := by
  intro n
  induction n using PRNode.induct_children with
  | step n ih =>
    rw [allNodes_eq, List.length_cons, length_allNodesSlots _ ih]
    cases n with
    | mk l b cs ps => simp [PRNode.size, PRNode.children, Nat.add_comm]

end CounterProofs

/-- C17. Diagnostic counters of `getPointsInBox`, for fewer than 2^31 visited
nodes and examined points (the range of the `int` counters): `nodesProcessed`
is the number of visited nodes (the root plus every node reached through a
chain of present children that each intersect the OBB and have level at most
`maxLevel`) and so does not depend on `minLevel`; `pointsProcessed` is the
number of points stored in visited nodes of level at least `minLevel`; and
`points.size() ≤ pointsProcessed`. -/
theorem getPointsInBox_counters {D : Type} (mkOBB : dmat4 D → OBB D)
    (reader : PotreeReader D) (box : dmat4 D) (minLevel maxLevel : Int)
    (hnodes : visitedCount (mkOBB box) maxLevel reader.root < 2147483648)
    (hpoints : visitedPoints (mkOBB box) minLevel maxLevel reader.root < 2147483648) :
    (getPointsInBox mkOBB reader box minLevel maxLevel).nodesProcessed
      = visitedCount (mkOBB box) maxLevel reader.root ∧
    (∀ minLevel' : Int,
      (getPointsInBox mkOBB reader box minLevel' maxLevel).nodesProcessed
        = (getPointsInBox mkOBB reader box minLevel maxLevel).nodesProcessed) ∧
    (getPointsInBox mkOBB reader box minLevel maxLevel).pointsProcessed
      = visitedPoints (mkOBB box) minLevel maxLevel reader.root ∧
    ((getPointsInBox mkOBB reader box minLevel maxLevel).points.length : Int)
      ≤ (getPointsInBox mkOBB reader box minLevel maxLevel).pointsProcessed := by
  refine ⟨?_, ?_, ?_, ?_⟩
  · rw [getPointsInBox_nodesProcessed, wrapInt32_of_lt _ hnodes]
  · intro minLevel'
    rw [getPointsInBox_nodesProcessed, getPointsInBox_nodesProcessed]
  · rw [getPointsInBox_pointsProcessed, wrapInt32_of_lt _ hpoints]
  · rw [getPointsInBox_pointsProcessed, wrapInt32_of_lt _ hpoints, getPointsInBox_points]
    have h := length_flatMap_emitted_le (mkOBB box) minLevel
      (dfs (mkOBB box) maxLevel reader.root)
    rw [sum_examined_dfs] at h
    exact_mod_cast h

theorem getPointsInBox_counters_witness :
    (getPointsInBox axisAlignedOBB (sampleReader twoLevelTree) unitQuery 0 1).nodesProcessed
      = visitedCount (axisAlignedOBB unitQuery) 1 (sampleReader twoLevelTree).root ∧
    (∀ minLevel' : Int,
      (getPointsInBox axisAlignedOBB (sampleReader twoLevelTree) unitQuery minLevel'
          1).nodesProcessed
        = (getPointsInBox axisAlignedOBB (sampleReader twoLevelTree) unitQuery 0
          1).nodesProcessed) ∧
    (getPointsInBox axisAlignedOBB (sampleReader twoLevelTree) unitQuery 0 1).pointsProcessed
      = visitedPoints (axisAlignedOBB unitQuery) 0 1 (sampleReader twoLevelTree).root ∧
    ((getPointsInBox axisAlignedOBB (sampleReader twoLevelTree) unitQuery 0
        1).points.length : Int)
      ≤ (getPointsInBox axisAlignedOBB (sampleReader twoLevelTree) unitQuery 0
        1).pointsProcessed :=
  getPointsInBox_counters axisAlignedOBB (sampleReader twoLevelTree) unitQuery 0 1
    (by decide) (by decide)

/-- C19. Termination and single visit of the node-selection loop of
`getPointsInBox`: on every finite tree in which each node is reached from the
root by exactly one child path (and with fewer than 2^31 nodes, the range of
`int nodesProcessed`) the work-stack loop, a total function, ends with a list
of intersecting nodes that contains no node twice, has the root as first
element and has at most as many elements as the tree has nodes; and
`nodesProcessed` is at least 1 and at most the number of nodes of the tree. -/
theorem selectNodes_single_visit {D : Type} (mkOBB : dmat4 D → OBB D)
    (reader : PotreeReader D) (box : dmat4 D) (minLevel maxLevel : Int)
    (hfinite : (allNodes reader.root).Nodup) (hsize : reader.root.size < 2147483648) :
    (selectNodes (mkOBB box) maxLevel [reader.root] []).Nodup ∧
    (selectNodes (mkOBB box) maxLevel [reader.root] []).head? = some reader.root ∧
    (selectNodes (mkOBB box) maxLevel [reader.root] []).length ≤ reader.root.size ∧
    1 ≤ (getPointsInBox mkOBB reader box minLevel maxLevel).nodesProcessed ∧
    (getPointsInBox mkOBB reader box minLevel maxLevel).nodesProcessed
      ≤ reader.root.size := by
  have hsub := dfs_sublist_allNodes (mkOBB box) maxLevel reader.root
  have hlen : (dfs (mkOBB box) maxLevel reader.root).length ≤ reader.root.size := by
    rw [← length_allNodes]
    exact hsub.length_le
  have hpos : 1 ≤ (dfs (mkOBB box) maxLevel reader.root).length := by
    rw [dfs_eq, List.length_cons]
    omega
  have hnodes : (getPointsInBox mkOBB reader box minLevel maxLevel).nodesProcessed
      = ((dfs (mkOBB box) maxLevel reader.root).length : Nat) := by
    rw [getPointsInBox_nodesProcessed, ← length_dfs, wrapInt32_of_lt _ (by omega)]
  rw [selectNodes_root]
  refine ⟨hsub.nodup hfinite, ?_, hlen, ?_, ?_⟩
  · rw [dfs_eq, List.head?_cons]
  · rw [hnodes]
    exact_mod_cast hpos
  · rw [hnodes]
    exact_mod_cast hlen

theorem selectNodes_single_visit_witness :
    (selectNodes (axisAlignedOBB unitQuery) 1 [(sampleReader twoLevelTree).root] []).Nodup ∧
    (selectNodes (axisAlignedOBB unitQuery) 1 [(sampleReader twoLevelTree).root] []).head?
      = some (sampleReader twoLevelTree).root ∧
    (selectNodes (axisAlignedOBB unitQuery) 1 [(sampleReader twoLevelTree).root] []).length
      ≤ (sampleReader twoLevelTree).root.size ∧
    1 ≤ (getPointsInBox axisAlignedOBB (sampleReader twoLevelTree) unitQuery 0
      1).nodesProcessed ∧
    (getPointsInBox axisAlignedOBB (sampleReader twoLevelTree) unitQuery 0 1).nodesProcessed
      ≤ (sampleReader twoLevelTree).root.size :=
  selectNodes_single_visit axisAlignedOBB (sampleReader twoLevelTree) unitQuery 0 1
    (by simp [allNodes, allNodesSlots, sampleReader, twoLevelTree, cubeAABB, samplePoint])
    (by decide)

/-! ## Completeness on octrees -/

section OctreeProofs

variable {D : Type}

end OctreeProofs

